import Mathlib

/-!
Verification development for the PDF Sortier Meister analysis cache,
background worker queue, persistence layer and folder classifier.

The definitions below are a shallow embedding of `src/core/pdf_cache.py`,
`src/ml/classifier.py` and `src/utils/database.py`:

* file-system paths are `String`s; the file system is a function
  `String → Option Int` giving the current mtime of an existing file
  (`none` = the file does not exist; mtimes are modelled as integers,
  only equality/inequality of mtimes is ever used by the code);
* Python dicts keyed by path are association lists `List (String × α)`
  (`alGet` / `alSet` / `alErase` mirror `d.get`, `d[k] = v`, `del d[k]`);
* the SQLite table `pdf_cache` is an association list of rows; JSON
  serialisation of string lists round-trips and is modelled by storing
  the structured value, with `Option` capturing SQL NULL and Python
  truthiness of the serialised column;
* `time.time()` timestamps used for FIFO tie-breaking in the priority
  queue are modelled by a strictly increasing `Nat` clock;
* Qt signals/callbacks are modelled by returning the list of callback
  invocations (callback id paired with the delivered record).
-/

namespace PDFSort

/-- Association-list lookup, mirroring Python `dict.get`. -/
def alGet {α : Type} : List (String × α) → String → Option α
  | [], _ => none
  | (k, v) :: rest, key => if k = key then some v else alGet rest key

/-- Association-list insert-or-replace, mirroring Python `d[k] = v`
(and SQLite `INSERT OR REPLACE` keyed by primary key). -/
def alSet {α : Type} : List (String × α) → String → α → List (String × α)
  | [], key, v => [(key, v)]
  | (k, w) :: rest, key, v =>
    if k = key then (k, v) :: rest else (k, w) :: alSet rest key v

/-- Association-list delete, mirroring Python `del d[k]` / `d.pop(k)`
(and SQL `DELETE ... WHERE pdf_path = ?`). -/
def alErase {α : Type} : List (String × α) → String → List (String × α)
  | [], _ => []
  | (k, w) :: rest, key =>
    if k = key then alErase rest key else (k, w) :: alErase rest key

/-- `LLMSuggestion` dataclass from `pdf_cache.py`. -/
structure LLMSuggestion where
  filename : String
  confidence : ℚ := 0
  source : String := "llm"
deriving DecidableEq, Repr

/-- `PDFAnalysisResult` dataclass from `pdf_cache.py`.  `dates` are kept
as strings (the persistence layer itself only round-trips `str(d)`),
`analyzed_at` is an abstract timestamp, `file_modified` the mtime
fingerprint taken at analysis time. -/
structure PDFAnalysisResult where
  pdf_path : String
  extracted_text : String := ""
  keywords : List String := []
  dates : List String := []
  analyzed_at : Nat := 0
  file_modified : Int := 0
  llm_suggestions : List LLMSuggestion := []
  llm_fetched : Bool := false
deriving DecidableEq, Repr

/-- One row of the SQLite `pdf_cache` table.  `Option` encodes a SQL
NULL column; the JSON payloads of the `keywords` / `dates` /
`llm_suggestions` columns are stored structurally (`json.dumps` of a
list is never the empty string, so Python truthiness of a non-NULL
column is `isSome`). -/
structure DBRow where
  pdf_path : String
  extracted_text : String
  keywords : Option (List String)
  dates : Option (List String)
  analyzed_at : Option Nat
  file_modified : Int
  llm_suggestions : Option (List LLMSuggestion)
  llm_fetched : Int
deriving DecidableEq, Repr

/-- One entry of the `PDFAnalysisWorker` priority queue: the tuple
`(priority, time.time(), pdf_path)` pushed by `add_task`. -/
structure QTask where
  priority : Int
  enqueued_at : Nat
  pdf_path : String
deriving DecidableEq, Repr

/-- Combined mutable state of the `PDFCache` singleton together with its
analysis worker's queue: the in-memory cache dict, the pending-callback
registry (callback ids in registration order), the persistent SQLite
table, and the worker queue with the model clock for `time.time()`. -/
structure CacheState where
  cache : List (String × PDFAnalysisResult)
  pending_callbacks : List (String × List Nat)
  db : List (String × DBRow)
  queue : List QTask
  clock : Nat
deriving DecidableEq, Repr

/-- `PDFAnalysisWorker.add_task`: push `(priority, now, pdf_path)`. -/
def add_task (q : List QTask) (pdf_path : String) (priority : Int) (now : Nat) :
    List QTask :=
  q ++ [⟨priority, now, pdf_path⟩]

/-- `PDFAnalysisWorker.add_urgent`: priority 1. -/
def add_urgent (q : List QTask) (pdf_path : String) (now : Nat) : List QTask :=
  add_task q pdf_path 1 now

/-- `PDFAnalysisWorker.add_background`: priority 10. -/
def add_background (q : List QTask) (pdf_path : String) (now : Nat) : List QTask :=
  add_task q pdf_path 10 now

/-- Strict "is served before" order of queue entries: lexicographic on
`(priority, enqueued_at, pdf_path)`, exactly the Python tuple order used
by `queue.PriorityQueue`. -/
def taskBefore (a b : QTask) : Bool :=
  if a.priority ≠ b.priority then decide (a.priority < b.priority)
  else if a.enqueued_at ≠ b.enqueued_at then decide (a.enqueued_at < b.enqueued_at)
  else decide (a.pdf_path < b.pdf_path)

/-- Remove the minimal entry from the queue (what `PriorityQueue.get`
returns next).  Returns the served task and the remaining queue. -/
def popMin : List QTask → Option (QTask × List QTask)
  | [] => none
  | t :: ts =>
    if ts.all (fun u => ! taskBefore u t) then some (t, ts)
    else
      match popMin ts with
      | none => some (t, ts)
      | some (m, rest) => some (m, t :: rest)

namespace PDFCache

/-- `PDFCache.get`: look up the cached record; if the file still exists
and its live mtime differs from the cached fingerprint, evict the entry
and return nothing.  Returns the result together with the (possibly
evicted-from) state. -/
def get (fs : String → Option Int) (st : CacheState) (pdf_path : String) :
    Option PDFAnalysisResult × CacheState :=
  match alGet st.cache pdf_path with
  | none => (none, st)
  | some result =>
    match fs pdf_path with
    | some current_mtime =>
      if current_mtime ≠ result.file_modified then
        (none, { st with cache := alErase st.cache pdf_path })
      else
        (some result, st)
    | none => (some result, st)

/-- Serialisation performed by `PDFCache._save_to_db` for one record:
`llm_suggestions` is stored as NULL when the list is empty. -/
def saveRow (r : PDFAnalysisResult) : DBRow :=
  { pdf_path := r.pdf_path
    extracted_text := r.extracted_text
    keywords := some r.keywords
    dates := some r.dates
    analyzed_at := some r.analyzed_at
    file_modified := r.file_modified
    llm_suggestions := if r.llm_suggestions = [] then none else some r.llm_suggestions
    llm_fetched := if r.llm_fetched then 1 else 0 }

/-- `PDFCache._save_to_db`: `INSERT OR REPLACE` of the record's row,
keyed by its path. -/
def saveToDb (db : List (String × DBRow)) (r : PDFAnalysisResult) :
    List (String × DBRow) :=
  alSet db r.pdf_path (saveRow r)

/-- Deserialisation of one row in `PDFCache._load_from_db`: skip the row
when the file no longer exists or its live mtime differs from the stored
fingerprint; otherwise rebuild the record.  Both `llm_suggestions` and
`llm_fetched` are recovered only when the serialised suggestion column
is non-NULL (the `if row[6]:` guard in the source). -/
def loadRow (fs : String → Option Int) (now : Nat) (row : DBRow) :
    Option PDFAnalysisResult :=
  match fs row.pdf_path with
  | none => none
  | some current_mtime =>
    if current_mtime ≠ row.file_modified then none
    else
      some
        { pdf_path := row.pdf_path
          extracted_text := row.extracted_text
          keywords := row.keywords.getD []
          dates := row.dates.getD []
          analyzed_at := row.analyzed_at.getD now
          file_modified := row.file_modified
          llm_suggestions := row.llm_suggestions.getD []
          llm_fetched :=
            match row.llm_suggestions with
            | some _ => row.llm_fetched ≠ 0
            | none => false }

/-- `PDFCache._load_from_db`: fold over all rows, inserting every
surviving row into the in-memory map under the row's path. -/
def loadFromDb (fs : String → Option Int) (now : Nat)
    (db : List (String × DBRow)) : List (String × PDFAnalysisResult) :=
  db.foldl
    (fun acc kv =>
      match loadRow fs now kv.2 with
      | some r => alSet acc kv.2.pdf_path r
      | none => acc)
    []

/-- `PDFCache.clear`: empty the in-memory map only. -/
def clear (st : CacheState) : CacheState :=
  { st with cache := [] }

/-- `PDFCache.clear_for_pdf`: drop one in-memory entry. -/
def clear_for_pdf (st : CacheState) (pdf_path : String) : CacheState :=
  { st with cache := alErase st.cache pdf_path }

/-- `PDFCache.clear_persistent_cache`: `DELETE FROM pdf_cache` — empties
the persistent table, leaving the in-memory map alone. -/
def clear_persistent_cache (st : CacheState) : CacheState :=
  { st with db := [] }

/-- `PDFCache._on_analysis_error`: pop all callbacks pending for the
path and invoke each once with an empty-but-valid record (the callback
invocations are returned as events; the in-memory cache and the
persistent table are untouched). -/
def on_analysis_error (st : CacheState) (pdf_path : String) :
    CacheState × List (Nat × PDFAnalysisResult) :=
  let callbacks := (alGet st.pending_callbacks pdf_path).getD []
  let empty_result : PDFAnalysisResult := { pdf_path := pdf_path }
  ({ st with pending_callbacks := alErase st.pending_callbacks pdf_path },
   callbacks.map (fun c => (c, empty_result)))

/-- `PDFCache._on_analysis_complete`: store the result in the in-memory
map, pop and fire all pending callbacks for the path with that result,
and upsert the row into the persistent table.  (The follow-up LLM
pre-cache enqueue touches only the separate LLM worker and is outside
this model.) -/
def on_analysis_complete (st : CacheState) (pdf_path : String)
    (result : PDFAnalysisResult) : CacheState × List (Nat × PDFAnalysisResult) :=
  let callbacks := (alGet st.pending_callbacks pdf_path).getD []
  ({ st with
      cache := alSet st.cache pdf_path result
      pending_callbacks := alErase st.pending_callbacks pdf_path
      db := saveToDb st.db result },
   callbacks.map (fun c => (c, result)))

/-- `PDFCache.migrate_cache_entry`: if the old path is cached, re-key
the entry to the new path, refresh its mtime fingerprint from the new
file (when it exists), delete the old persistent row and upsert the
re-keyed one. -/
def migrate_cache_entry (fs : String → Option Int) (st : CacheState)
    (old_path new_path : String) : CacheState :=
  match alGet st.cache old_path with
  | none => st
  | some old_entry =>
    let entry : PDFAnalysisResult :=
      { old_entry with
          pdf_path := new_path
          file_modified :=
            match fs new_path with
            | some m => m
            | none => old_entry.file_modified }
    { st with
        cache := alSet (alErase st.cache old_path) new_path entry
        db := saveToDb (alErase st.db old_path) entry }

/-- `PDFCache.request_analysis`: serve from the cache when possible
(firing the callback synchronously); otherwise register the callback
under the path and enqueue a worker task with priority 1 (urgent) or 10
(background), stamping the current clock as `time.time()`.  Returns the
immediate result, the new state, and the synchronous callback
invocations. -/
def request_analysis (fs : String → Option Int) (st : CacheState)
    (pdf_path : String) (callback : Option Nat) (urgent : Bool) :
    Option PDFAnalysisResult × CacheState × List (Nat × PDFAnalysisResult) :=
  match get fs st pdf_path with
  | (some cached, st') =>
    (some cached, st',
     match callback with
     | some c => [(c, cached)]
     | none => [])
  | (none, st') =>
    let st2 :=
      match callback with
      | some c =>
        { st' with
            pending_callbacks :=
              alSet st'.pending_callbacks pdf_path
                ((alGet st'.pending_callbacks pdf_path).getD [] ++ [c]) }
      | none => st'
    (none,
     { st2 with
        queue := add_task st2.queue pdf_path (if urgent then 1 else 10) st2.clock
        clock := st2.clock + 1 },
     [])

end PDFCache

/-- One iteration of `PDFAnalysisWorker.run` wired to the cache slots
(`analysis_complete` → `PDFCache._on_analysis_complete`): pop the
minimal queue entry; skip it when the file no longer exists; otherwise
run the external extractor (`ex path = (text, keywords, dates)`), stamp
the live mtime, and deliver the result to the cache.  Returns the new
state, the list of extractor invocations made (paths), and the callback
invocations fired. -/
def worker_step (fs : String → Option Int)
    (ex : String → String × List String × List String) (now : Nat)
    (st : CacheState) : CacheState × List String × List (Nat × PDFAnalysisResult) :=
  match popMin st.queue with
  | none => (st, [], [])
  | some (t, rest) =>
    let st1 := { st with queue := rest }
    match fs t.pdf_path with
    | none => (st1, [], [])
    | some m =>
      let out := ex t.pdf_path
      let result : PDFAnalysisResult :=
        { pdf_path := t.pdf_path
          extracted_text := out.1
          keywords := out.2.1
          dates := out.2.2
          analyzed_at := now
          file_modified := m }
      let step := PDFCache.on_analysis_complete st1 t.pdf_path result
      (step.1, [t.pdf_path], step.2)

/-- Run the worker loop for `fuel` iterations or until the queue is
empty, accumulating extractor invocations and callback firings. -/
def drain (fs : String → Option Int)
    (ex : String → String × List String × List String) (now : Nat) :
    Nat → CacheState → CacheState × List String × List (Nat × PDFAnalysisResult)
  | 0, st => (st, [], [])
  | fuel + 1, st =>
    match popMin st.queue with
    | none => (st, [], [])
    | some _ =>
      let s1 := worker_step fs ex now st
      let s2 := drain fs ex now fuel s1.1
      (s2.1, s1.2.1 ++ s2.2.1, s1.2.2 ++ s2.2.2)

/-- N concurrent `request_analysis` calls for the same path, one
callback id per call, all non-urgent. -/
def requestMany (fs : String → Option Int) (st : CacheState) (pdf_path : String)
    (cbs : List Nat) : CacheState :=
  cbs.foldl (fun s c => (PDFCache.request_analysis fs s pdf_path (some c) false).2.1) st

namespace PDFClassifier

/-- `Suggestion` dataclass from `classifier.py`. -/
structure Suggestion where
  folder_path : String
  folder_name : String
  confidence : ℚ
  reason : String
  relative_path : String := ""
deriving DecidableEq, Repr

/-- The fields of the `SortingHistory` ORM row that the keyword-overlap
signal reads: the comma-separated keyword column (nullable), the learned
absolute folder path, and the learned folder name. -/
structure SortingHistory where
  keywords : Option String
  target_folder : String
  target_folder_name : String
deriving DecidableEq, Repr

/-- Python `str.lower()` (ASCII case folding suffices for the model). -/
def lowerStr (s : String) : String :=
  String.mk (s.data.map Char.toLower)

/-- Helper for `splitComma`: accumulate the current field in reverse. -/
def splitCommaAux : List Char → List Char → List String
  | [], acc => [String.mk acc.reverse]
  | c :: rest, acc =>
    if c = ',' then String.mk acc.reverse :: splitCommaAux rest []
    else splitCommaAux rest (c :: acc)

/-- Python `str.split(",")`: the comma-separated fields, empty fields
included (`"".split(",") == [""]`). -/
def splitComma (s : String) : List String :=
  splitCommaAux s.data []

/-- `Database.search_similar_keywords`: keep the rows whose lowercased
comma-split keyword set intersects the lowercased query keyword set
(rows with a NULL or empty keyword column are skipped by the
`if entry.keywords:` truthiness guard); set intersection is modelled by
`any`/`contains`, which agrees with nonempty set intersection. -/
def search_similar_keywords (entries : List SortingHistory)
    (keywords : List String) : List SortingHistory :=
  entries.filter (fun e =>
    match e.keywords with
    | none => false
    | some ks =>
      if ks = "" then false
      else (splitComma (lowerStr ks)).any
        (fun k => (keywords.map lowerStr).contains k))

/-- The `folder_counts` dict built by `_suggest_by_keywords`: keyed by
folder name in first-appearance order, keeping the first entry's learned
path and counting matching rows. -/
def groupCounts (entries : List SortingHistory) :
    List (String × (String × Nat)) :=
  entries.foldl
    (fun acc e =>
      match alGet acc e.target_folder_name with
      | some pc => alSet acc e.target_folder_name (pc.1, pc.2 + 1)
      | none => acc ++ [(e.target_folder_name, (e.target_folder, 1))])
    []

/-- Stable descending insertion by confidence (a new element is placed
after all elements of greater-or-equal confidence), matching Python's
stable `list.sort(key=confidence, reverse=True)`. -/
def insertDesc (s : Suggestion) : List Suggestion → List Suggestion
  | [] => [s]
  | t :: ts =>
    if t.confidence < s.confidence then s :: t :: ts else t :: insertDesc s ts

/-- Stable sort by confidence descending. -/
def sortDesc (l : List Suggestion) : List Suggestion :=
  l.foldl (fun acc s => insertDesc s acc) []

/-- `PDFClassifier._suggest_by_keywords`: select matching rows, group by
folder name, score each resolvable folder `min(count/total · 0.8, 0.8)`,
sort descending, truncate.  `resolve` abstracts
`_resolve_folder_path(learned_path, folder_name)` and `nameOf`
abstracts `Path.name`. -/
def suggest_by_keywords (resolve : String → String → Option String)
    (nameOf : String → String) (entries : List SortingHistory)
    (keywords : List String) (max_suggestions : Nat) : List Suggestion :=
  let matched := search_similar_keywords entries keywords
  if matched.isEmpty then []
  else
    let counts := groupCounts matched
    let total : Nat := (counts.map (fun kv => kv.2.2)).sum
    let suggs := counts.filterMap (fun kv =>
      match resolve kv.2.1 kv.1 with
      | some fp =>
        some { folder_path := fp
               folder_name := nameOf fp
               confidence := min ((kv.2.2 : ℚ) / (total : ℚ) * (4 / 5)) (4 / 5)
               reason := "Ähnliche Schlüsselwörter" }
      | none => none)
    (sortDesc suggs).take max_suggestions

/-- The sequential duplicate-avoiding append used by `suggest` for the
keyword and frequency sources: append each new suggestion unless some
already-collected suggestion has the same folder path. -/
def addUnique (acc : List Suggestion) (xs : List Suggestion) : List Suggestion :=
  xs.foldl
    (fun a s =>
      if a.any (fun t => t.folder_path = s.folder_path) then a else a ++ [s])
    acc

/-- `PDFClassifier.suggest`: the three signal sources are oracles
(`textSuggs` gated by `hasText` = "TF-IDF matrix present and text
non-empty", `keywordSuggs` gated by `hasKeywords` = "query keywords
non-empty", `frequentSuggs n` = `_suggest_by_frequency n`, consulted
only when fewer than `max_suggestions` were collected); the merge,
dedup, sort and truncation are the source's.  `mergedSources` is the
merged, deduplicated list before sorting/truncation (the `suggestions`
local of the Python method). -/
def mergedSources (hasText : Bool) (textSuggs : List Suggestion)
    (hasKeywords : Bool) (keywordSuggs : List Suggestion)
    (frequentSuggs : Nat → List Suggestion) (max_suggestions : Nat) :
    List Suggestion :=
  let s1 := if hasText then textSuggs else []
  let s2 := if hasKeywords then addUnique s1 keywordSuggs else s1
  if s2.length < max_suggestions then
    addUnique s2 (frequentSuggs (max_suggestions - s2.length))
  else s2

/-- `PDFClassifier.suggest`: the merged candidates sorted by confidence
descending (stable) and truncated to `max_suggestions`. -/
def suggest (hasText : Bool) (textSuggs : List Suggestion)
    (hasKeywords : Bool) (keywordSuggs : List Suggestion)
    (frequentSuggs : Nat → List Suggestion) (max_suggestions : Nat) :
    List Suggestion :=
  (sortDesc (mergedSources hasText textSuggs hasKeywords keywordSuggs
    frequentSuggs max_suggestions)).take max_suggestions

/-- `PDFClassifier._update_year_pattern`: deliberately the identity —
the learned folder is never rewritten to the document's year. -/
def update_year_pattern (folder_path : String) (relative_path : String)
    (target_year : Int) : String × String :=
  (folder_path, relative_path)

/-- The `re.search(r'20\d\x7b2\x7d', s)` scan of
`_extract_year_from_date`: first position where "20" is followed by two
digits. -/
def findYear : List Char → Option Int
  | [] => none
  | c :: rest =>
    match c, rest with
    | '2', '0' :: a :: b :: _ =>
      if a.isDigit && b.isDigit then
        some ((2000 + 10 * (a.toNat - 48) + (b.toNat - 48) : Nat) : Int)
      else findYear rest
    | _, _ => findYear rest

/-- `PDFClassifier._extract_year_from_date`. -/
def extract_year_from_date (date_str : Option String) : Option Int :=
  match date_str with
  | none => none
  | some s => if s = "" then none else findYear s.data

/-- `PDFClassifier.suggest_with_subfolders`: fetch `2·max` base
suggestions from `suggest`, attach each one's relative display path
(`getRel` abstracts `_get_relative_path(·, root_folders)`), pass
through the identity `update_year_pattern`, dedup by folder path and
truncate. -/
def suggest_with_subfolders (hasText : Bool) (textSuggs : List Suggestion)
    (hasKeywords : Bool) (keywordSuggs : List Suggestion)
    (frequentSuggs : Nat → List Suggestion)
    (getRel : String → String) (nameOf : String → String)
    (detected_date : Option String) (current_year : Int)
    (max_suggestions : Nat) : List Suggestion :=
  let base :=
    suggest hasText textSuggs hasKeywords keywordSuggs frequentSuggs
      (max_suggestions * 2)
  let target_year := (extract_year_from_date detected_date).getD current_year
  let out := base.foldl
    (fun acc s =>
      let rel := getRel s.folder_path
      let up := update_year_pattern s.folder_path rel target_year
      let s' : Suggestion :=
        { folder_path := up.1
          folder_name := nameOf up.1
          confidence := s.confidence
          reason := s.reason
          relative_path := up.2 }
      if acc.any (fun e => e.folder_path = s'.folder_path) then acc
      else acc ++ [s'])
    []
  out.take max_suggestions

/-- Number of rows of `l` learned for folder name `n` (the
`matchCount` of one folder among the keyword matches). -/
def countName (n : String) (l : List SortingHistory) : Nat :=
  (l.filter (fun e => e.target_folder_name = n)).length

end PDFClassifier

/-! ### Concrete instances used by individual counterexamples/witnesses -/

/-- A cached record for the `get` counterexample. -/
def c2r : PDFAnalysisResult := { pdf_path := "a", file_modified := 5 }

/-- A cache state holding `c2r` under path "a". -/
def c2st : CacheState :=
  { cache := [("a", c2r)], pending_callbacks := [], db := [], queue := [], clock := 0 }

/-- File system for the coalescing scenario: only "a" exists, mtime 5. -/
def c1fs : String → Option Int := fun p => if p = "a" then some 5 else none

/-- Extractor oracle for the coalescing scenario. -/
def c1ex : String → String × List String × List String := fun _ => ("T", ["k"], ["d"])

/-- Empty initial cache state. -/
def c1st : CacheState :=
  { cache := [], pending_callbacks := [], db := [], queue := [], clock := 0 }

/-- The worker queue produced by `k` background requests for the same
path enqueued at consecutive clock ticks starting at `c`. -/
def taskRun (k c : Nat) (p : String) : List QTask :=
  (List.range k).map (fun i => ⟨10, c + i, p⟩)

/-- A cached record with LLM suggestions for the migration witness. -/
def c6r : PDFAnalysisResult :=
  { pdf_path := "a", extracted_text := "T", keywords := ["k"], dates := ["d"],
    analyzed_at := 3, file_modified := 5,
    llm_suggestions := [{ filename := "new.pdf", confidence := 1/2 }],
    llm_fetched := true }

/-- A cache state holding `c6r` under path "a" with its persisted row. -/
def c6st : CacheState :=
  { cache := [("a", c6r)], pending_callbacks := [],
    db := [("a", PDFCache.saveRow c6r)], queue := [], clock := 0 }

/-- Record for the persistence-round-trip counterexample:
`llm_fetched = true` with an empty suggestion list. -/
def c8r : PDFAnalysisResult := { pdf_path := "a", file_modified := 5, llm_fetched := true }

/-- File system for the persistence scenarios: only "a" exists, mtime 5. -/
def c8fs : String → Option Int := fun p => if p = "a" then some 5 else none

/-- Learned base suggestion for the year-rewriting scenario: folder
"Tax 2025", trained before a document dated 2026 arrives. -/
def c4tax : PDFClassifier.Suggestion :=
  { folder_path := "/root/Tax 2025", folder_name := "Tax 2025",
    confidence := 9/10, reason := "similar content" }

/-- Relative-path oracle for the year-rewriting scenario. -/
def c4rel : String → String :=
  fun p => if p = "/root/Tax 2025" then "Tax 2025" else p

/-- `Path.name` oracle for the year-rewriting scenario. -/
def c4name : String → String :=
  fun p => if p = "/root/Tax 2025" then "Tax 2025" else p

/-- An invoice training row for the keyword-overlap scenario. -/
def c9inv : PDFClassifier.SortingHistory :=
  { keywords := some "invoice,tax", target_folder := "/x/Invoices",
    target_folder_name := "Invoices" }

/-- Training rows for the keyword-overlap scenario: two invoices, one
contract. -/
def c9rows : List PDFClassifier.SortingHistory :=
  [c9inv,
   { keywords := some "contract", target_folder := "/x/Contracts",
     target_folder_name := "Contracts" },
   { keywords := some "invoice", target_folder := "/x/Invoices",
     target_folder_name := "Invoices" }]

/-- Text-similarity suggestion for the merge counterexample: folder "F"
with confidence 0.2. -/
def c3t : PDFClassifier.Suggestion :=
  { folder_path := "F", folder_name := "F", confidence := 1/5,
    reason := "similar content" }

/-- Keyword suggestion for the merge counterexample: the same folder "F"
with the higher confidence 0.8. -/
def c3k : PDFClassifier.Suggestion :=
  { folder_path := "F", folder_name := "F", confidence := 4/5,
    reason := "similar keywords" }

end PDFSort

namespace PDFSort

/-! ### Association-list lemmas -/

theorem alGet_alSet_self {α : Type} (m : List (String × α)) (k : String) (v : α) :
    alGet (alSet m k v) k = some v := by
  induction m with
  | nil => simp [alSet, alGet]
  | cons e rest ih =>
    obtain ⟨k', w⟩ := e
    by_cases h : k' = k
    · simp [alSet, h, alGet]
    · simp [alSet, h, alGet, ih]

theorem alGet_alSet_ne {α : Type} (m : List (String × α)) (k k' : String) (v : α)
    (h : k ≠ k') : alGet (alSet m k v) k' = alGet m k' := by
  induction m with
  | nil => simp [alSet, alGet, h]
  | cons e rest ih =>
    obtain ⟨k₀, w⟩ := e
    by_cases h0 : k₀ = k
    · subst h0
      simp [alSet, alGet, h]
    · simp [alSet, h0, alGet, ih]

theorem alGet_alErase_self {α : Type} (m : List (String × α)) (k : String) :
    alGet (alErase m k) k = none := by
  induction m with
  | nil => simp [alErase, alGet]
  | cons e rest ih =>
    obtain ⟨k₀, w⟩ := e
    by_cases h0 : k₀ = k
    · simp [alErase, h0, ih]
    · simp [alErase, h0, alGet, ih]

theorem alGet_alErase_ne {α : Type} (m : List (String × α)) (k k' : String)
    (h : k ≠ k') : alGet (alErase m k) k' = alGet m k' := by
  induction m with
  | nil => simp [alErase, alGet]
  | cons e rest ih =>
    obtain ⟨k₀, w⟩ := e
    by_cases h0 : k₀ = k
    · subst h0
      simp [alErase, alGet, h, ih]
    · simp [alErase, h0, alGet, ih]

theorem alSet_append_of_ne {α : Type} (m : List (String × α)) (k : String) (v : α)
    (h : ∀ e ∈ m, e.1 ≠ k) : alSet m k v = m ++ [(k, v)] := by
  induction m with
  | nil => simp [alSet]
  | cons e rest ih =>
    obtain ⟨k₀, w⟩ := e
    have hk₀ : k₀ ≠ k := h (k₀, w) (by simp)
    simp only [alSet, hk₀, if_false]
    simp [ih fun e he => h e (by simp [he])]

/-! ### Priority-queue order lemmas -/

theorem taskBefore_eq_true_iff (a b : QTask) :
    taskBefore a b = true ↔
      a.priority < b.priority
      ∨ (a.priority = b.priority
          ∧ (a.enqueued_at < b.enqueued_at
              ∨ (a.enqueued_at = b.enqueued_at ∧ a.pdf_path < b.pdf_path))) := by
  unfold taskBefore
  by_cases h1 : a.priority = b.priority
  · by_cases h2 : a.enqueued_at = b.enqueued_at
    · simp [h1, h2]
    · simp [h1, h2]
  · simp [h1]

theorem taskBefore_irrefl (t : QTask) : taskBefore t t = false := by
  simp [taskBefore]

theorem taskBefore_trans {a b c : QTask} (h1 : taskBefore a b = true)
    (h2 : taskBefore b c = true) : taskBefore a c = true := by
  rw [taskBefore_eq_true_iff] at h1 h2 ⊢
  rcases h1 with h1 | ⟨e1, h1⟩
  · rcases h2 with h2 | ⟨e2, _⟩
    · exact Or.inl (lt_trans h1 h2)
    · exact Or.inl (e2 ▸ h1)
  · rcases h2 with h2 | ⟨e2, h2⟩
    · exact Or.inl (e1 ▸ h2)
    · refine Or.inr ⟨e1.trans e2, ?_⟩
      rcases h1 with h1 | ⟨f1, h1⟩
      · rcases h2 with h2 | ⟨f2, _⟩
        · exact Or.inl (lt_trans h1 h2)
        · exact Or.inl (f2 ▸ h1)
      · rcases h2 with h2 | ⟨f2, h2⟩
        · exact Or.inl (f1 ▸ h2)
        · exact Or.inr ⟨f1.trans f2, lt_trans h1 h2⟩

theorem popMin_isSome (t : QTask) (ts : List QTask) :
    (popMin (t :: ts)).isSome := by
  unfold popMin
  split
  · rfl
  · split <;> rfl

/-- The task served by `popMin` is minimal: no task of the queue is
strictly before it in `(priority, enqueue time)` order. -/
theorem popMin_min (q : List QTask) (m : QTask) (rest : List QTask)
    (h : popMin q = some (m, rest)) : ∀ u ∈ q, taskBefore u m = false := by
  induction q generalizing m rest with
  | nil => simp [popMin] at h
  | cons t ts ih =>
    unfold popMin at h
    by_cases hall : ts.all (fun u => ! taskBefore u t) = true
    · rw [if_pos hall] at h
      simp only [Option.some.injEq, Prod.mk.injEq] at h
      obtain ⟨rfl, rfl⟩ := h
      intro u hu
      rcases List.mem_cons.mp hu with rfl | hu
      · exact taskBefore_irrefl u
      · have := List.all_eq_true.mp hall u hu
        simpa using this
    · rw [if_neg hall] at h
      obtain ⟨u0, hu0, hbu0⟩ : ∃ u0 ∈ ts, taskBefore u0 t = true := by
        by_contra hc
        push_neg at hc
        apply hall
        refine List.all_eq_true.mpr fun u hu => ?_
        cases hx : taskBefore u t
        · rfl
        · exact absurd hx (hc u hu)
      cases hts : popMin ts with
      | none =>
        cases ts with
        | nil => simp at hu0
        | cons t' ts' =>
          have := popMin_isSome t' ts'
          rw [hts] at this
          simp at this
      | some pr =>
        obtain ⟨m', rest'⟩ := pr
        rw [hts] at h
        simp only [Option.some.injEq, Prod.mk.injEq] at h
        obtain ⟨rfl, rfl⟩ := h
        intro u hu
        rcases List.mem_cons.mp hu with rfl | hu
        · by_contra htm
          have htm' : taskBefore u m' = true := by
            cases hx : taskBefore u m'
            · exact absurd hx htm
            · rfl
          have h1 := ih m' rest' hts u0 hu0
          have := taskBefore_trans hbu0 htm'
          rw [this] at h1
          exact Bool.noConfusion h1
        · exact ih m' rest' hts u hu

end PDFSort

namespace PDFSort

/-! ### C2 — `get` mtime validation -/

/-- **C2 counterexample.** The claim "get(P) returns a record iff a
completed analysis for P is cached and P's current on-disk modification
time equals the cached fingerprint" fails when the file has been
deleted: with `c2r` cached for `"a"` and no file on disk (so no on-disk
mtime equals the fingerprint), `get` still returns the cached record. -/
theorem get_returns_record_for_deleted_file :
    (PDFCache.get (fun _ => none) c2st "a").1 = some c2r
    ∧ (fun _ => (none : Option Int)) "a" = none := by
  constructor
  · rfl
  · rfl

/-- **C2 (amended).** For a path whose file exists on disk with live
mtime `m`, `get` returns a record iff that record is cached and its
fingerprint equals `m`; on a fingerprint mismatch it evicts the entry
and returns nothing (so a second `get` also returns nothing).  When the
file no longer exists, the cached record is returned without validation
and the state is unchanged. -/
theorem get_mtime_validation (fs : String → Option Int) (st : CacheState) (p : String) :
    (∀ m r, fs p = some m →
      ((PDFCache.get fs st p).1 = some r ↔
        alGet st.cache p = some r ∧ m = r.file_modified))
    ∧ (∀ m r, fs p = some m → alGet st.cache p = some r → m ≠ r.file_modified →
        (PDFCache.get fs st p).1 = none
        ∧ alGet (PDFCache.get fs st p).2.cache p = none
        ∧ (PDFCache.get fs (PDFCache.get fs st p).2 p).1 = none)
    ∧ (fs p = none →
        (PDFCache.get fs st p).1 = alGet st.cache p
        ∧ (PDFCache.get fs st p).2 = st) := by
  refine ⟨?_, ?_, ?_⟩
  · intro m r hm
    cases hc : alGet st.cache p with
    | none => simp [PDFCache.get, hc]
    | some r' =>
      have hget : PDFCache.get fs st p =
          if m ≠ r'.file_modified then
            (none, { st with cache := alErase st.cache p })
          else (some r', st) := by
        simp [PDFCache.get, hc, hm]
      by_cases he : m = r'.file_modified
      · rw [hget, if_neg (by simp [he])]
        constructor
        · intro h
          obtain rfl : r' = r := by simpa using h
          exact ⟨rfl, he⟩
        · rintro ⟨h1, h2⟩
          obtain rfl : r' = r := by simpa using h1
          rfl
      · rw [hget, if_pos he]
        constructor
        · intro h
          exact absurd h (by simp)
        · rintro ⟨h1, h2⟩
          obtain rfl : r' = r := by simpa using h1
          exact absurd h2 he
  · intro m r hm hc hne
    have hget : PDFCache.get fs st p
        = (none, { st with cache := alErase st.cache p }) := by
      simp [PDFCache.get, hc, hm, hne]
    refine ⟨by rw [hget], ?_, ?_⟩
    · rw [hget]
      exact alGet_alErase_self st.cache p
    · rw [hget]
      simp [PDFCache.get, alGet_alErase_self st.cache p]
  · intro hm
    cases hc : alGet st.cache p with
    | none => simp [PDFCache.get, hc]
    | some r' => simp [PDFCache.get, hc, hm]

/-- **C2 witness.** The mismatch clause of `get_mtime_validation` at the
concrete state `c2st` (cached fingerprint 5, live mtime 7): `get`
returns nothing and the entry is evicted. -/
theorem get_mtime_validation_witness :
    (PDFCache.get (fun _ => some 7) c2st "a").1 = none
    ∧ alGet (PDFCache.get (fun _ => some 7) c2st "a").2.cache "a" = none := by
  have h := (get_mtime_validation (fun _ => some 7) c2st "a").2.1 7 c2r rfl rfl
    (by decide)
  exact ⟨h.1, h.2.1⟩

/-! ### C5 — priority ordering of the worker queue -/

/-- **C5.** The worker serves the queue minimum: a task strictly before
another in `(priority, enqueue time)` order is served first — lower
priority number wins, and within one priority band the earlier enqueue
time (FIFO) wins; in particular one background task (priority 10)
followed by one urgent task (priority 1) on an idle worker is served
urgent-first. -/
theorem worker_priority_fifo (p1 p2 : String) (pr1 pr2 : Int) (t1 t2 : Nat) :
    (∀ q m rest, popMin q = some (m, rest) → ∀ u ∈ q, taskBefore u m = false)
    ∧ (pr2 < pr1 →
        popMin [⟨pr1, t1, p1⟩, ⟨pr2, t2, p2⟩]
          = some (⟨pr2, t2, p2⟩, [⟨pr1, t1, p1⟩]))
    ∧ (pr1 = pr2 → t1 < t2 →
        popMin [⟨pr1, t1, p1⟩, ⟨pr2, t2, p2⟩]
          = some (⟨pr1, t1, p1⟩, [⟨pr2, t2, p2⟩]))
    ∧ popMin (add_urgent (add_background [] p1 t1) p2 t2)
        = some (⟨1, t2, p2⟩, [⟨10, t1, p1⟩]) := by
  refine ⟨popMin_min, ?_, ?_, ?_⟩
  · intro h
    have hne : pr2 ≠ pr1 := ne_of_lt h
    simp [popMin, taskBefore, hne, h]
  · intro he ht
    have hne : t2 ≠ t1 := (ne_of_lt ht).symm
    have hnlt : ¬ t2 < t1 := not_lt_of_lt ht
    simp [popMin, taskBefore, he, hne, hnlt]
  · have h110 : (1 : Int) ≠ 10 := by decide
    have hlt : (1 : Int) < 10 := by decide
    simp [add_urgent, add_background, add_task, popMin, taskBefore, h110, hlt]

/-- **C5 witness.** The priority clauses of `worker_priority_fifo`
instantiated at concrete tasks: priority 1 enqueued after priority 10 is
served first, and two priority-10 tasks are served in enqueue order. -/
theorem worker_priority_fifo_witness :
    popMin [⟨10, 0, "x"⟩, ⟨1, 1, "y"⟩] = some (⟨1, 1, "y"⟩, [⟨10, 0, "x"⟩])
    ∧ popMin [⟨10, 0, "x"⟩, ⟨10, 1, "y"⟩] = some (⟨10, 0, "x"⟩, [⟨10, 1, "y"⟩]) :=
  ⟨(worker_priority_fifo "x" "y" 10 1 0 1).2.1 (by decide),
   (worker_priority_fifo "x" "y" 10 10 0 1).2.2.1 rfl (by decide)⟩

/-! ### C7 — error reporting contract -/

/-- **C7.** When the worker reports an analysis error for a path, every
callback pending for that path is invoked exactly once with the
empty-but-valid record (blank text, empty keyword and date lists, same
path); the pending registration for the path is cleared, and the
in-memory cache, the persistent table and the queue are all unchanged.
(Exceptions raised by a callback are swallowed by the source's
`try/except` around each invocation; callbacks here are pure.) -/
theorem analysis_error_contract (st : CacheState) (p : String) :
    (PDFCache.on_analysis_error st p).2
      = ((alGet st.pending_callbacks p).getD []).map
          (fun c => (c, { pdf_path := p, extracted_text := "", keywords := [],
                          dates := [], analyzed_at := 0, file_modified := 0,
                          llm_suggestions := [], llm_fetched := false }))
    ∧ alGet (PDFCache.on_analysis_error st p).1.pending_callbacks p = none
    ∧ (PDFCache.on_analysis_error st p).1.cache = st.cache
    ∧ (PDFCache.on_analysis_error st p).1.db = st.db
    ∧ (PDFCache.on_analysis_error st p).1.queue = st.queue := by
  refine ⟨rfl, ?_, rfl, rfl, rfl⟩
  exact alGet_alErase_self st.pending_callbacks p

/-! ### C10 — `clear` empties only the in-memory map -/

/-- **C10.** `clear` empties the in-memory map (every subsequent `get`
returns nothing) but leaves the persistent table untouched, so the next
startup `load` restores exactly what it would have restored before the
`clear`; deleting the persisted rows is the separate
`clear_persistent_cache`, which conversely leaves the in-memory map
alone. -/
theorem clear_is_memory_only (fs : String → Option Int) (now : Nat)
    (st : CacheState) (p : String) :
    (PDFCache.clear st).cache = []
    ∧ (PDFCache.get fs (PDFCache.clear st) p).1 = none
    ∧ (PDFCache.clear st).db = st.db
    ∧ PDFCache.loadFromDb fs now (PDFCache.clear st).db
        = PDFCache.loadFromDb fs now st.db
    ∧ (PDFCache.clear_persistent_cache st).db = []
    ∧ (PDFCache.clear_persistent_cache st).cache = st.cache := by
  refine ⟨rfl, ?_, rfl, rfl, rfl, rfl⟩
  simp [PDFCache.get, PDFCache.clear, alGet]

end PDFSort

namespace PDFSort

/-! ### C6 — migration preserves suggestions -/

/-- Whenever `get` returns a record, that record is the cached entry. -/
theorem get_some_cached (fs : String → Option Int) (st : CacheState) (p : String)
    (r : PDFAnalysisResult) (h : (PDFCache.get fs st p).1 = some r) :
    alGet st.cache p = some r := by
  unfold PDFCache.get at h
  cases hc : alGet st.cache p with
  | none =>
    rw [hc] at h
    simp at h
  | some r' =>
    rw [hc] at h
    cases hfs : fs p with
    | none =>
      rw [hfs] at h
      simp at h
      rw [h]
    | some m =>
      rw [hfs] at h
      by_cases he : m = r'.file_modified
      · simp [he] at h
        rw [h]
      · simp [he] at h

/-- **C6.** For a cached path `A` (whose record `get(A)` would return)
and a distinct path `B`, `migrate_cache_entry A B` re-keys the record to
`B` preserving `llm_suggestions`/`llm_fetched` (and all other fields
except the path and the refreshed mtime fingerprint): afterwards
`get(B)` returns the migrated record, `get(A)` returns nothing, and the
persistent row has moved from key `A` to key `B`. -/
theorem migrate_preserves_suggestions (fs : String → Option Int) (st : CacheState)
    (A B : String) (r : PDFAnalysisResult)
    (hAB : A ≠ B)
    (hbefore : (PDFCache.get fs st A).1 = some r) :
    ∃ r', (PDFCache.get fs (PDFCache.migrate_cache_entry fs st A B) B).1 = some r'
      ∧ r'.llm_suggestions = r.llm_suggestions
      ∧ r'.llm_fetched = r.llm_fetched
      ∧ r'.extracted_text = r.extracted_text
      ∧ r'.keywords = r.keywords
      ∧ r'.dates = r.dates
      ∧ r'.analyzed_at = r.analyzed_at
      ∧ r'.pdf_path = B
      ∧ (PDFCache.get fs (PDFCache.migrate_cache_entry fs st A B) A).1 = none
      ∧ alGet (PDFCache.migrate_cache_entry fs st A B).db B
          = some (PDFCache.saveRow r')
      ∧ alGet (PDFCache.migrate_cache_entry fs st A B).db A = none := by
  have hc : alGet st.cache A = some r := get_some_cached fs st A r hbefore
  refine ⟨{ r with
              pdf_path := B
              file_modified :=
                match fs B with
                | some m => m
                | none => r.file_modified },
          ?_, rfl, rfl, rfl, rfl, rfl, rfl, rfl, ?_, ?_, ?_⟩
  · have hmig : (PDFCache.migrate_cache_entry fs st A B).cache
        = alSet (alErase st.cache A) B
            { r with
                pdf_path := B
                file_modified :=
                  match fs B with
                  | some m => m
                  | none => r.file_modified } := by
      simp [PDFCache.migrate_cache_entry, hc]
    cases hfs : fs B with
    | none =>
      simp only [PDFCache.get, hmig, alGet_alSet_self, hfs]
    | some m =>
      simp only [PDFCache.get, hmig, alGet_alSet_self, hfs]
      rw [if_neg (by simp [hfs])]
  · have hmig : (PDFCache.migrate_cache_entry fs st A B).cache
        = alSet (alErase st.cache A) B
            { r with
                pdf_path := B
                file_modified :=
                  match fs B with
                  | some m => m
                  | none => r.file_modified } := by
      simp [PDFCache.migrate_cache_entry, hc]
    have hA : alGet (PDFCache.migrate_cache_entry fs st A B).cache A = none := by
      rw [hmig, alGet_alSet_ne _ _ _ _ (Ne.symm hAB)]
      exact alGet_alErase_self st.cache A
    simp [PDFCache.get, hA]
  · have hdb : (PDFCache.migrate_cache_entry fs st A B).db
        = alSet (alErase st.db A) B
            (PDFCache.saveRow
              { r with
                  pdf_path := B
                  file_modified :=
                    match fs B with
                    | some m => m
                    | none => r.file_modified }) := by
      simp [PDFCache.migrate_cache_entry, hc, PDFCache.saveToDb]
    rw [hdb]
    exact alGet_alSet_self _ _ _
  · have hdb : (PDFCache.migrate_cache_entry fs st A B).db
        = alSet (alErase st.db A) B
            (PDFCache.saveRow
              { r with
                  pdf_path := B
                  file_modified :=
                    match fs B with
                    | some m => m
                    | none => r.file_modified }) := by
      simp [PDFCache.migrate_cache_entry, hc, PDFCache.saveToDb]
    rw [hdb, alGet_alSet_ne _ _ _ _ (Ne.symm hAB)]
    exact alGet_alErase_self st.db A

/-- **C6 witness.** Migration of the concrete state `c6st` (record with
LLM suggestions cached under "a", file already moved away on disk) to
key "b". -/
theorem migrate_preserves_suggestions_witness :
    ∃ r', (PDFCache.get (fun _ => none)
            (PDFCache.migrate_cache_entry (fun _ => none) c6st "a" "b") "b").1 = some r'
      ∧ r'.llm_suggestions = c6r.llm_suggestions
      ∧ r'.llm_fetched = c6r.llm_fetched
      ∧ r'.extracted_text = c6r.extracted_text
      ∧ r'.keywords = c6r.keywords
      ∧ r'.dates = c6r.dates
      ∧ r'.analyzed_at = c6r.analyzed_at
      ∧ r'.pdf_path = "b"
      ∧ (PDFCache.get (fun _ => none)
          (PDFCache.migrate_cache_entry (fun _ => none) c6st "a" "b") "a").1 = none
      ∧ alGet (PDFCache.migrate_cache_entry (fun _ => none) c6st "a" "b").db "b"
          = some (PDFCache.saveRow r')
      ∧ alGet (PDFCache.migrate_cache_entry (fun _ => none) c6st "a" "b").db "a"
          = none :=
  migrate_preserves_suggestions (fun _ => none) c6st "a" "b" c6r
    (by decide) rfl

end PDFSort


namespace PDFSort

/-! ### C1 — request coalescing -/

theorem taskRun_succ (k c : Nat) (p : String) :
    taskRun (k + 1) c p = ⟨10, c, p⟩ :: taskRun k (c + 1) p := by
  simp only [taskRun, List.range_succ_eq_map, List.map_cons, List.map_map]
  congr 1
  apply List.map_congr_left
  intro i _
  simp only [Function.comp_apply, QTask.mk.injEq, true_and, and_true]
  omega

/-- One uncached `request_analysis` call: register the callback and
enqueue one background task. -/
theorem request_analysis_uncached (fs : String → Option Int) (st : CacheState)
    (p : String) (c : Nat) (h : alGet st.cache p = none) :
    PDFCache.request_analysis fs st p (some c) false =
      (none,
       { st with
          pending_callbacks := alSet st.pending_callbacks p
            ((alGet st.pending_callbacks p).getD [] ++ [c])
          queue := st.queue ++ [⟨10, st.clock, p⟩]
          clock := st.clock + 1 },
       []) := by
  simp [PDFCache.request_analysis, PDFCache.get, h, add_task]

/-- Effect of N uncached `request_analysis` calls for one path: the
cache and the store are untouched, the callbacks are appended in order,
and one background task per call is enqueued at consecutive clock
ticks. -/
theorem requestMany_spec (fs : String → Option Int) (st : CacheState)
    (p : String) (cbs : List Nat) (h : alGet st.cache p = none) :
    (requestMany fs st p cbs).cache = st.cache
    ∧ (alGet (requestMany fs st p cbs).pending_callbacks p).getD []
        = (alGet st.pending_callbacks p).getD [] ++ cbs
    ∧ (requestMany fs st p cbs).queue = st.queue ++ taskRun cbs.length st.clock p
    ∧ (requestMany fs st p cbs).clock = st.clock + cbs.length
    ∧ (requestMany fs st p cbs).db = st.db := by
  induction cbs generalizing st with
  | nil => simp [requestMany, taskRun]
  | cons c cbs ih =>
    have hone : requestMany fs st p (c :: cbs)
        = requestMany fs
            { st with
                pending_callbacks := alSet st.pending_callbacks p
                  ((alGet st.pending_callbacks p).getD [] ++ [c])
                queue := st.queue ++ [⟨10, st.clock, p⟩]
                clock := st.clock + 1 }
            p cbs := by
      have hr : requestMany fs st p (c :: cbs)
          = requestMany fs ((PDFCache.request_analysis fs st p (some c) false).2.1)
              p cbs := rfl
      rw [hr, request_analysis_uncached fs st p c h]
    have h1 : alGet
        ({ st with
            pending_callbacks := alSet st.pending_callbacks p
              ((alGet st.pending_callbacks p).getD [] ++ [c])
            queue := st.queue ++ [⟨10, st.clock, p⟩]
            clock := st.clock + 1 } : CacheState).cache p = none := h
    obtain ⟨ic, ip, iq, ik, id'⟩ := ih _ h1
    rw [hone]
    refine ⟨ic, ?_, ?_, ?_, id'⟩
    · rw [ip]
      have : alGet
          (alSet st.pending_callbacks p
            ((alGet st.pending_callbacks p).getD [] ++ [c])) p
          = some ((alGet st.pending_callbacks p).getD [] ++ [c]) :=
        alGet_alSet_self _ _ _
      rw [show ({ st with
            pending_callbacks := alSet st.pending_callbacks p
              ((alGet st.pending_callbacks p).getD [] ++ [c])
            queue := st.queue ++ [⟨10, st.clock, p⟩]
            clock := st.clock + 1 } : CacheState).pending_callbacks
          = alSet st.pending_callbacks p
              ((alGet st.pending_callbacks p).getD [] ++ [c]) from rfl, this]
      simp
    · rw [iq, List.length_cons, taskRun_succ]
      simp
    · rw [ik]
      simp
      omega

/-- `popMin` pops the head when nothing later is strictly before it. -/
theorem popMin_cons_of_min (t : QTask) (ts : List QTask)
    (h : ∀ u ∈ ts, taskBefore u t = false) :
    popMin (t :: ts) = some (t, ts) := by
  unfold popMin
  rw [if_pos]
  exact List.all_eq_true.mpr fun u hu => by rw [h u hu]; rfl

/-- Every task of a later-enqueued run is served after the run's head. -/
theorem taskRun_head_min (k c : Nat) (p : String) :
    ∀ u ∈ taskRun k (c + 1) p, taskBefore u ⟨10, c, p⟩ = false := by
  intro u hu
  simp only [taskRun, List.mem_map, List.mem_range] at hu
  obtain ⟨i, _, rfl⟩ := hu
  cases hx : taskBefore ⟨10, c + 1 + i, p⟩ ⟨10, c, p⟩
  · rfl
  · exfalso
    have h2 := (taskBefore_eq_true_iff _ _).mp hx
    simp only at h2
    rcases h2 with h2 | ⟨-, h2 | ⟨h2, hp⟩⟩
    · exact absurd h2 (by omega)
    · omega
    · omega

/-- Draining a run of same-path tasks with no pending callbacks: each
task re-runs the extractor, none fires a callback. -/
theorem drain_no_pending (fs : String → Option Int)
    (ex : String → String × List String × List String) (now : Nat)
    (p : String) (m : Int) (k c : Nat) (st : CacheState)
    (hq : st.queue = taskRun k c p)
    (hp : alGet st.pending_callbacks p = none)
    (hm : fs p = some m) :
    (drain fs ex now k st).2.1 = List.replicate k p
    ∧ (drain fs ex now k st).2.2 = [] := by
  induction k generalizing c st with
  | zero => simp [drain]
  | succ k ih =>
    rw [taskRun_succ] at hq
    have hpop : popMin st.queue = some (⟨10, c, p⟩, taskRun k (c + 1) p) := by
      rw [hq]
      exact popMin_cons_of_min _ _ (taskRun_head_min k c p)
    have hws : worker_step fs ex now st
        = ({ st with
              queue := taskRun k (c + 1) p
              cache := alSet st.cache p
                { pdf_path := p, extracted_text := (ex p).1,
                  keywords := (ex p).2.1, dates := (ex p).2.2,
                  analyzed_at := now, file_modified := m,
                  llm_suggestions := [], llm_fetched := false }
              pending_callbacks := alErase st.pending_callbacks p
              db := PDFCache.saveToDb st.db
                { pdf_path := p, extracted_text := (ex p).1,
                  keywords := (ex p).2.1, dates := (ex p).2.2,
                  analyzed_at := now, file_modified := m,
                  llm_suggestions := [], llm_fetched := false } },
           [p], []) := by
      simp [worker_step, hpop, hm, PDFCache.on_analysis_complete, hp]
    have hdrain : drain fs ex now (k + 1) st
        = ((drain fs ex now k (worker_step fs ex now st).1).1,
           (worker_step fs ex now st).2.1
             ++ (drain fs ex now k (worker_step fs ex now st).1).2.1,
           (worker_step fs ex now st).2.2
             ++ (drain fs ex now k (worker_step fs ex now st).1).2.2) := by
      show (match popMin st.queue with
            | none => (st, ([] : List String), ([] : List (Nat × PDFAnalysisResult)))
            | some _ =>
              ((drain fs ex now k (worker_step fs ex now st).1).1,
               (worker_step fs ex now st).2.1
                 ++ (drain fs ex now k (worker_step fs ex now st).1).2.1,
               (worker_step fs ex now st).2.2
                 ++ (drain fs ex now k (worker_step fs ex now st).1).2.2)) = _
      rw [hpop]
    have hnext := ih (c + 1) (worker_step fs ex now st).1
      (by rw [hws]) (by rw [hws]; exact alGet_alErase_self _ _)
    refine ⟨?_, ?_⟩
    · rw [hdrain]
      show (worker_step fs ex now st).2.1
          ++ (drain fs ex now k (worker_step fs ex now st).1).2.1
          = List.replicate (k + 1) p
      rw [hnext.1, show (worker_step fs ex now st).2.1 = [p] from by rw [hws]]
      simp [List.replicate_succ]
    · rw [hdrain]
      show (worker_step fs ex now st).2.2
          ++ (drain fs ex now k (worker_step fs ex now st).1).2.2 = []
      rw [hnext.2, show (worker_step fs ex now st).2.2 = [] from by rw [hws]]
      simp

end PDFSort

namespace PDFSort

/-- **C1 (amended).** N concurrent `request_analysis` calls for the same
uncached path coalesce their *callbacks* — all N are registered in order
under the path and every one fires exactly once, with the single first
analysis result — but they do **not** coalesce into one queued task: each
call enqueues its own background worker task, so draining the queue
invokes the extractor once per request (N times), not once. -/
theorem request_coalescing_amended (fs : String → Option Int)
    (ex : String → String × List String × List String) (now : Nat)
    (st : CacheState) (p : String) (m : Int) (cbs : List Nat)
    (hc : alGet st.cache p = none)
    (hp : alGet st.pending_callbacks p = none)
    (hq : st.queue = [])
    (hm : fs p = some m) :
    (alGet (requestMany fs st p cbs).pending_callbacks p).getD [] = cbs
    ∧ (requestMany fs st p cbs).queue = taskRun cbs.length st.clock p
    ∧ (drain fs ex now cbs.length (requestMany fs st p cbs)).2.1
        = List.replicate cbs.length p
    ∧ (drain fs ex now cbs.length (requestMany fs st p cbs)).2.2
        = cbs.map (fun c =>
            (c, { pdf_path := p, extracted_text := (ex p).1,
                  keywords := (ex p).2.1, dates := (ex p).2.2,
                  analyzed_at := now, file_modified := m,
                  llm_suggestions := [], llm_fetched := false })) := by
  obtain ⟨ic, ip, iq, ik, id'⟩ := requestMany_spec fs st p cbs hc
  have hpend : (alGet (requestMany fs st p cbs).pending_callbacks p).getD [] = cbs := by
    rw [ip, hp]
    rfl
  have hqueue : (requestMany fs st p cbs).queue = taskRun cbs.length st.clock p := by
    rw [iq, hq]
    rfl
  refine ⟨hpend, hqueue, ?_⟩
  cases cbs with
  | nil => simp [drain]
  | cons c cbs' =>
    rw [List.length_cons] at hqueue ⊢
    rw [taskRun_succ] at hqueue
    have hpop : popMin (requestMany fs st p (c :: cbs')).queue
        = some (⟨10, st.clock, p⟩, taskRun cbs'.length (st.clock + 1) p) := by
      rw [hqueue]
      exact popMin_cons_of_min _ _ (taskRun_head_min cbs'.length st.clock p)
    have hws : worker_step fs ex now (requestMany fs st p (c :: cbs'))
        = ((PDFCache.on_analysis_complete
              { requestMany fs st p (c :: cbs') with
                  queue := taskRun cbs'.length (st.clock + 1) p } p
              { pdf_path := p, extracted_text := (ex p).1,
                keywords := (ex p).2.1, dates := (ex p).2.2,
                analyzed_at := now, file_modified := m,
                llm_suggestions := [], llm_fetched := false }).1,
           [p],
           (PDFCache.on_analysis_complete
              { requestMany fs st p (c :: cbs') with
                  queue := taskRun cbs'.length (st.clock + 1) p } p
              { pdf_path := p, extracted_text := (ex p).1,
                keywords := (ex p).2.1, dates := (ex p).2.2,
                analyzed_at := now, file_modified := m,
                llm_suggestions := [], llm_fetched := false }).2) := by
      simp [worker_step, hpop, hm]
    have hfire : (worker_step fs ex now (requestMany fs st p (c :: cbs'))).2.2
        = (c :: cbs').map (fun cb =>
            (cb, { pdf_path := p, extracted_text := (ex p).1,
                   keywords := (ex p).2.1, dates := (ex p).2.2,
                   analyzed_at := now, file_modified := m,
                   llm_suggestions := [], llm_fetched := false })) := by
      rw [hws]
      show (((alGet (requestMany fs st p (c :: cbs')).pending_callbacks p).getD []).map _) = _
      rw [hpend]
    have hnext := drain_no_pending fs ex now p m cbs'.length (st.clock + 1)
      (worker_step fs ex now (requestMany fs st p (c :: cbs'))).1
      (by rw [hws]; rfl)
      (by
        rw [hws]
        show alGet (alErase (requestMany fs st p (c :: cbs')).pending_callbacks p) p
            = none
        exact alGet_alErase_self _ _)
      hm
    have hdrain : drain fs ex now (cbs'.length + 1) (requestMany fs st p (c :: cbs'))
        = ((drain fs ex now cbs'.length
              (worker_step fs ex now (requestMany fs st p (c :: cbs'))).1).1,
           (worker_step fs ex now (requestMany fs st p (c :: cbs'))).2.1
             ++ (drain fs ex now cbs'.length
                  (worker_step fs ex now (requestMany fs st p (c :: cbs'))).1).2.1,
           (worker_step fs ex now (requestMany fs st p (c :: cbs'))).2.2
             ++ (drain fs ex now cbs'.length
                  (worker_step fs ex now (requestMany fs st p (c :: cbs'))).1).2.2) := by
      show (match popMin (requestMany fs st p (c :: cbs')).queue with
            | none => (requestMany fs st p (c :: cbs'), ([] : List String),
                       ([] : List (Nat × PDFAnalysisResult)))
            | some _ =>
              ((drain fs ex now cbs'.length
                  (worker_step fs ex now (requestMany fs st p (c :: cbs'))).1).1,
               (worker_step fs ex now (requestMany fs st p (c :: cbs'))).2.1
                 ++ (drain fs ex now cbs'.length
                      (worker_step fs ex now (requestMany fs st p (c :: cbs'))).1).2.1,
               (worker_step fs ex now (requestMany fs st p (c :: cbs'))).2.2
                 ++ (drain fs ex now cbs'.length
                      (worker_step fs ex now (requestMany fs st p (c :: cbs'))).1).2.2)) = _
      rw [hpop]
    refine ⟨?_, ?_⟩
    · rw [hdrain]
      show (worker_step fs ex now (requestMany fs st p (c :: cbs'))).2.1
          ++ (drain fs ex now cbs'.length
               (worker_step fs ex now (requestMany fs st p (c :: cbs'))).1).2.1
          = List.replicate (cbs'.length + 1) p
      rw [hnext.1, show (worker_step fs ex now (requestMany fs st p (c :: cbs'))).2.1
          = [p] from by rw [hws]]
      simp [List.replicate_succ]
    · rw [hdrain]
      show (worker_step fs ex now (requestMany fs st p (c :: cbs'))).2.2
          ++ (drain fs ex now cbs'.length
               (worker_step fs ex now (requestMany fs st p (c :: cbs'))).1).2.2
          = _
      rw [hnext.2, hfire]
      simp

/-- **C1 counterexample.** Two concurrent `request_analysis` calls for
the uncached path "a" enqueue **two** worker tasks (not the claimed
single coalesced task), and draining the queue invokes the extractor
**twice** (not the claimed exactly once). -/
theorem request_coalescing_cex :
    (requestMany c1fs c1st "a" [0, 1]).queue.length = 2
    ∧ ¬ (requestMany c1fs c1st "a" [0, 1]).queue.length = 1
    ∧ (drain c1fs c1ex 0 2 (requestMany c1fs c1st "a" [0, 1])).2.1.length = 2
    ∧ ¬ (drain c1fs c1ex 0 2 (requestMany c1fs c1st "a" [0, 1])).2.1.length = 1 := by
  refine ⟨rfl, by decide, rfl, by decide⟩

/-- **C1 witness.** `request_coalescing_amended` at the concrete
scenario: two requests with callbacks 0 and 1 for uncached "a". -/
theorem request_coalescing_amended_witness :
    (alGet (requestMany c1fs c1st "a" [0, 1]).pending_callbacks "a").getD [] = [0, 1]
    ∧ (drain c1fs c1ex 0 2 (requestMany c1fs c1st "a" [0, 1])).2.1
        = List.replicate 2 "a" := by
  have h := request_coalescing_amended c1fs c1ex 0 c1st "a" 5 [0, 1]
    rfl rfl rfl rfl
  exact ⟨h.1, h.2.2.1⟩

end PDFSort

namespace PDFSort

/-! ### C8 — persistence round-trip -/

/-- Rows for other paths never touch the key of interest during load. -/
theorem loadFold_ne (fs : String → Option Int) (now : Nat)
    (L : List (String × DBRow)) (acc : List (String × PDFAnalysisResult))
    (k : String) (h : ∀ e ∈ L, e.2.pdf_path ≠ k) :
    alGet (L.foldl (fun acc kv =>
      match PDFCache.loadRow fs now kv.2 with
      | some r => alSet acc kv.2.pdf_path r
      | none => acc) acc) k = alGet acc k := by
  induction L generalizing acc with
  | nil => rfl
  | cons e L ih =>
    rw [List.foldl_cons]
    rw [ih _ (fun e' he' => h e' (List.mem_cons_of_mem _ he'))]
    cases hr : PDFCache.loadRow fs now e.2 with
    | none => rfl
    | some r => exact alGet_alSet_ne _ _ _ _ (h e (List.mem_cons_self _ _))

/-- Loading a just-saved row when the file survives with matching mtime. -/
theorem loadRow_saveRow (fs : String → Option Int) (now : Nat)
    (R : PDFAnalysisResult) (hm : fs R.pdf_path = some R.file_modified) :
    PDFCache.loadRow fs now (PDFCache.saveRow R)
      = some { R with
                llm_fetched := if R.llm_suggestions = [] then false
                               else R.llm_fetched } := by
  unfold PDFCache.loadRow PDFCache.saveRow
  simp only []
  rw [hm]
  simp only [ne_eq, not_true_eq_false, if_false, ite_not]
  by_cases hs : R.llm_suggestions = []
  · simp only [hs, if_pos rfl, if_true]
    cases hf : R.llm_fetched <;> simp [hs]
  · simp only [hs, if_neg hs, if_false]
    cases hf : R.llm_fetched <;> simp [hs]

/-- **C8 (amended).** `upsert` followed by a fresh `load` reproduces the
record under its path key when the file still exists with matching
mtime — except that the `llm_fetched` flag survives only together with a
nonempty suggestion list (a record with `llm_fetched = true` and no
suggestions reloads with `llm_fetched = false`, because the flag is
parsed only under the non-NULL-suggestions guard).  Rows whose file is
gone or whose stored mtime disagrees with the live file are silently
dropped at load time. -/
theorem persistence_roundtrip_amended (fs : String → Option Int) (now : Nat)
    (db : List (String × DBRow)) (R : PDFAnalysisResult)
    (hdb : ∀ e ∈ db, e.1 ≠ R.pdf_path ∧ e.2.pdf_path ≠ R.pdf_path) :
    (fs R.pdf_path = some R.file_modified →
      alGet (PDFCache.loadFromDb fs now (PDFCache.saveToDb db R)) R.pdf_path
        = some { R with
                  llm_fetched := if R.llm_suggestions = [] then false
                                 else R.llm_fetched })
    ∧ (fs R.pdf_path = none →
      alGet (PDFCache.loadFromDb fs now (PDFCache.saveToDb db R)) R.pdf_path = none)
    ∧ (∀ m, fs R.pdf_path = some m → m ≠ R.file_modified →
      alGet (PDFCache.loadFromDb fs now (PDFCache.saveToDb db R)) R.pdf_path = none) := by
  have hsave : PDFCache.saveToDb db R = db ++ [(R.pdf_path, PDFCache.saveRow R)] :=
    alSet_append_of_ne db R.pdf_path _ (fun e he => (hdb e he).1)
  have hsplit : PDFCache.loadFromDb fs now (PDFCache.saveToDb db R)
      = match PDFCache.loadRow fs now (PDFCache.saveRow R) with
        | some r => alSet (PDFCache.loadFromDb fs now db) (PDFCache.saveRow R).pdf_path r
        | none => PDFCache.loadFromDb fs now db := by
    rw [hsave]
    unfold PDFCache.loadFromDb
    rw [List.foldl_append]
    rfl
  have hother : alGet (PDFCache.loadFromDb fs now db) R.pdf_path = none := by
    unfold PDFCache.loadFromDb
    rw [loadFold_ne fs now db [] R.pdf_path (fun e he => (hdb e he).2)]
    rfl
  refine ⟨?_, ?_, ?_⟩
  · intro hm
    rw [hsplit, loadRow_saveRow fs now R hm]
    exact alGet_alSet_self _ _ _
  · intro hm
    have hload : PDFCache.loadRow fs now (PDFCache.saveRow R) = none := by
      unfold PDFCache.loadRow
      rw [show (PDFCache.saveRow R).pdf_path = R.pdf_path from rfl, hm]
    rw [hsplit, hload]
    exact hother
  · intro m hm hne
    have hload : PDFCache.loadRow fs now (PDFCache.saveRow R) = none := by
      unfold PDFCache.loadRow
      rw [show (PDFCache.saveRow R).pdf_path = R.pdf_path from rfl, hm]
      simp [PDFCache.saveRow, hne]
    rw [hsplit, hload]
    exact hother

/-- **C8 counterexample.** The record `c8r` (`llm_fetched = true`, no
LLM suggestions) does not round-trip even though its file exists with
matching mtime: the reloaded record has `llm_fetched = false`. -/
theorem persistence_roundtrip_cex :
    c8fs c8r.pdf_path = some c8r.file_modified
    ∧ c8r.llm_fetched = true
    ∧ alGet (PDFCache.loadFromDb c8fs 0 (PDFCache.saveToDb [] c8r)) "a"
        = some { c8r with llm_fetched := false }
    ∧ ¬ alGet (PDFCache.loadFromDb c8fs 0 (PDFCache.saveToDb [] c8r)) "a"
        = some c8r := by
  refine ⟨rfl, rfl, rfl, by decide⟩

/-- **C8 witness.** `persistence_roundtrip_amended` applied to `c8r`
over an empty store. -/
theorem persistence_roundtrip_amended_witness :
    alGet (PDFCache.loadFromDb c8fs 0 (PDFCache.saveToDb [] c8r)) c8r.pdf_path
      = some { c8r with
                llm_fetched := if c8r.llm_suggestions = [] then false
                               else c8r.llm_fetched } :=
  (persistence_roundtrip_amended c8fs 0 [] c8r (by simp)).1 rfl

end PDFSort

namespace PDFSort

/-! ### C4 — no year rewriting -/

/-- Membership in a duplicate-avoiding fold over mapped elements. -/
theorem mem_dedup_fold {α β : Type} (f : α → β) (P : List β → β → Bool) :
    ∀ (l : List α) (acc : List β) (x : β),
      x ∈ l.foldl (fun a s => if P a (f s) then a else a ++ [f s]) acc →
      x ∈ acc ∨ ∃ s ∈ l, x = f s := by
  intro l
  induction l with
  | nil =>
    intro acc x h
    exact Or.inl h
  | cons s0 l ih =>
    intro acc x h
    rw [List.foldl_cons] at h
    rcases ih _ x h with hx | ⟨s, hs, rfl⟩
    · by_cases hp : P acc (f s0) = true
      · rw [if_pos hp] at hx
        exact Or.inl hx
      · rw [if_neg hp] at hx
        rcases List.mem_append.mp hx with hx | hx
        · exact Or.inl hx
        · exact Or.inr ⟨s0, List.mem_cons_self _ _, List.mem_singleton.mp hx⟩
    · exact Or.inr ⟨s, List.mem_cons_of_mem _ hs, rfl⟩

/-- **C4.** `suggest_with_subfolders` never rewrites a learned folder's
year: every returned suggestion carries the base suggestion's folder
path, relative path and confidence verbatim; the output is entirely
independent of the detected date and the current year; and in the
concrete scenario — trained folder "Tax 2025", document dated
2026-01-15 — the suggestion is still "Tax 2025", never "Tax 2026". -/
theorem no_year_rewrite (hasText : Bool) (textSuggs : List PDFClassifier.Suggestion)
    (hasKeywords : Bool) (keywordSuggs : List PDFClassifier.Suggestion)
    (frequentSuggs : Nat → List PDFClassifier.Suggestion)
    (getRel nameOf : String → String)
    (d1 d2 : Option String) (y1 y2 : Int) (maxS : Nat) :
    (∀ s' ∈ PDFClassifier.suggest_with_subfolders hasText textSuggs hasKeywords
        keywordSuggs frequentSuggs getRel nameOf d1 y1 maxS,
      ∃ s ∈ PDFClassifier.suggest hasText textSuggs hasKeywords keywordSuggs
          frequentSuggs (maxS * 2),
        s'.folder_path = s.folder_path
        ∧ s'.relative_path = getRel s.folder_path
        ∧ s'.confidence = s.confidence)
    ∧ PDFClassifier.suggest_with_subfolders hasText textSuggs hasKeywords
        keywordSuggs frequentSuggs getRel nameOf d1 y1 maxS
      = PDFClassifier.suggest_with_subfolders hasText textSuggs hasKeywords
          keywordSuggs frequentSuggs getRel nameOf d2 y2 maxS
    ∧ PDFClassifier.suggest_with_subfolders true [c4tax] false [] (fun _ => [])
        c4rel c4name (some "2026-01-15") 2025 5
      = [{ folder_path := "/root/Tax 2025", folder_name := "Tax 2025",
           confidence := 9/10, reason := "similar content",
           relative_path := "Tax 2025" }] := by
  refine ⟨?_, rfl, rfl⟩
  intro s' hs'
  have h1 : s' ∈ (PDFClassifier.suggest hasText textSuggs hasKeywords keywordSuggs
      frequentSuggs (maxS * 2)).foldl
        (fun a s =>
          if a.any (fun e => e.folder_path
              = (({ folder_path := s.folder_path,
                    folder_name := nameOf s.folder_path,
                    confidence := s.confidence, reason := s.reason,
                    relative_path := getRel s.folder_path } :
                    PDFClassifier.Suggestion)).folder_path) then a
          else a ++ [{ folder_path := s.folder_path,
                       folder_name := nameOf s.folder_path,
                       confidence := s.confidence, reason := s.reason,
                       relative_path := getRel s.folder_path }]) [] :=
    List.mem_of_mem_take hs'
  have h2 := mem_dedup_fold
    (fun s : PDFClassifier.Suggestion =>
      ({ folder_path := s.folder_path, folder_name := nameOf s.folder_path,
         confidence := s.confidence, reason := s.reason,
         relative_path := getRel s.folder_path } : PDFClassifier.Suggestion))
    (fun a b => a.any (fun e => e.folder_path = b.folder_path))
    (PDFClassifier.suggest hasText textSuggs hasKeywords keywordSuggs
      frequentSuggs (maxS * 2)) [] s' h1
  rcases h2 with h2 | ⟨s, hs, rfl⟩
  · simp at h2
  · exact ⟨s, hs, rfl, rfl, rfl⟩

/-- **C4 witness.** The verbatim-preservation clause of
`no_year_rewrite` at the Tax-2025 scenario: the single suggestion for
the 2026-dated document comes verbatim from the learned base suggestion. -/
theorem no_year_rewrite_witness :
    ∃ s ∈ PDFClassifier.suggest true [c4tax] false [] (fun _ => []) 10,
      ("/root/Tax 2025" : String) = s.folder_path
      ∧ ("Tax 2025" : String) = c4rel s.folder_path
      ∧ (9/10 : ℚ) = s.confidence := by
  have h := (no_year_rewrite true [c4tax] false [] (fun _ => []) c4rel c4name
    (some "2026-01-15") none 2025 0 5).1
    { folder_path := "/root/Tax 2025", folder_name := "Tax 2025",
      confidence := 9/10, reason := "similar content",
      relative_path := "Tax 2025" }
    (by
      rw [(no_year_rewrite true [c4tax] false [] (fun _ => []) c4rel c4name
        (some "2026-01-15") none 2025 0 5).2.2]
      exact List.mem_singleton.mpr rfl)
  exact h

end PDFSort

namespace PDFSort

/-! ### C3 — merging of the three suggestion sources -/

/-- `addUnique` appends (in order) exactly those new suggestions whose
folder path does not already occur in the accumulated list. -/
theorem addUnique_split : ∀ (xs acc : List PDFClassifier.Suggestion),
    ∃ rest, PDFClassifier.addUnique acc xs = acc ++ rest
      ∧ ∀ s ∈ rest, s ∈ xs ∧ ∀ t ∈ acc, ¬ t.folder_path = s.folder_path := by
  intro xs
  induction xs with
  | nil =>
    intro acc
    exact ⟨[], by simp [PDFClassifier.addUnique], by simp⟩
  | cons x xs ih =>
    intro acc
    have hstep : PDFClassifier.addUnique acc (x :: xs)
        = PDFClassifier.addUnique
            (if acc.any (fun t => t.folder_path = x.folder_path) then acc
             else acc ++ [x]) xs := rfl
    by_cases hp : acc.any (fun t => t.folder_path = x.folder_path) = true
    · rw [hstep, if_pos hp]
      obtain ⟨rest, heq, hmem⟩ := ih acc
      exact ⟨rest, heq,
        fun s hs => ⟨List.mem_cons_of_mem _ (hmem s hs).1, (hmem s hs).2⟩⟩
    · rw [hstep, if_neg hp]
      obtain ⟨rest, heq, hmem⟩ := ih (acc ++ [x])
      refine ⟨x :: rest, by rw [heq]; simp, ?_⟩
      intro s hs
      rcases List.mem_cons.mp hs with rfl | hs
      · refine ⟨List.mem_cons_self _ _, ?_⟩
        intro t ht hteq
        exact hp (List.any_eq_true.mpr ⟨t, ht, by simp [hteq]⟩)
      · obtain ⟨hs1, hs2⟩ := hmem s hs
        exact ⟨List.mem_cons_of_mem _ hs1, fun t ht => hs2 t (by simp [ht])⟩

theorem mem_insertDesc (s x : PDFClassifier.Suggestion) :
    ∀ l, x ∈ PDFClassifier.insertDesc s l ↔ x = s ∨ x ∈ l := by
  intro l
  induction l with
  | nil => simp [PDFClassifier.insertDesc]
  | cons t ts ih =>
    unfold PDFClassifier.insertDesc
    by_cases hc : t.confidence < s.confidence
    · rw [if_pos hc]
      simp [List.mem_cons]
    · rw [if_neg hc]
      simp [List.mem_cons, ih]
      tauto

theorem mem_sortFold (l : List PDFClassifier.Suggestion) :
    ∀ (acc : List PDFClassifier.Suggestion) (x),
      x ∈ l.foldl (fun a s => PDFClassifier.insertDesc s a) acc
        ↔ x ∈ acc ∨ x ∈ l := by
  induction l with
  | nil => simp
  | cons s0 l ih =>
    intro acc x
    rw [List.foldl_cons, ih, mem_insertDesc]
    simp [List.mem_cons]
    tauto

theorem mem_sortDesc (l : List PDFClassifier.Suggestion)
    (x : PDFClassifier.Suggestion) :
    x ∈ PDFClassifier.sortDesc l ↔ x ∈ l := by
  unfold PDFClassifier.sortDesc
  rw [mem_sortFold]
  simp

theorem chain'_insertDesc (s : PDFClassifier.Suggestion) :
    ∀ l, List.Chain' (fun a b => b.confidence ≤ a.confidence) l →
      List.Chain' (fun a b => b.confidence ≤ a.confidence)
        (PDFClassifier.insertDesc s l) := by
  intro l
  induction l with
  | nil =>
    intro _
    simp [PDFClassifier.insertDesc]
  | cons t ts ih =>
    intro h
    unfold PDFClassifier.insertDesc
    by_cases hc : t.confidence < s.confidence
    · rw [if_pos hc]
      exact List.chain'_cons.mpr ⟨le_of_lt hc, h⟩
    · rw [if_neg hc]
      have hins := ih h.tail
      apply List.chain'_cons'.mpr
      refine ⟨?_, hins⟩
      intro y hy
      cases ts with
      | nil =>
        simp [PDFClassifier.insertDesc] at hy
        subst hy
        exact not_lt.mp hc
      | cons u ts' =>
        unfold PDFClassifier.insertDesc at hy
        by_cases hu : u.confidence < s.confidence
        · rw [if_pos hu] at hy
          simp at hy
          subst hy
          exact not_lt.mp hc
        · rw [if_neg hu] at hy
          simp at hy
          subst hy
          exact (List.chain'_cons.mp h).1

theorem sortFold_sorted (l : List PDFClassifier.Suggestion) :
    ∀ acc, List.Chain' (fun a b => b.confidence ≤ a.confidence) acc →
      List.Chain' (fun a b => b.confidence ≤ a.confidence)
        (l.foldl (fun a s => PDFClassifier.insertDesc s a) acc) := by
  induction l with
  | nil =>
    intro acc h
    exact h
  | cons s0 l ih =>
    intro acc h
    rw [List.foldl_cons]
    exact ih _ (chain'_insertDesc s0 acc h)

theorem sortDesc_sorted (l : List PDFClassifier.Suggestion) :
    List.Chain' (fun a b => b.confidence ≤ a.confidence)
      (PDFClassifier.sortDesc l) :=
  sortFold_sorted l [] (by simp)

/-- Provenance of a merged candidate: it comes from the gated text
source, the keyword source, or some frequency-fallback call. -/
theorem mergedSources_cases (hasText : Bool)
    (textS : List PDFClassifier.Suggestion) (hasKeywords : Bool)
    (keyS : List PDFClassifier.Suggestion)
    (freqS : Nat → List PDFClassifier.Suggestion) (maxS : Nat) :
    ∀ s ∈ PDFClassifier.mergedSources hasText textS hasKeywords keyS freqS maxS,
      s ∈ (if hasText then textS else []) ∨ s ∈ keyS ∨ ∃ n, s ∈ freqS n := by
  intro s hs
  simp only [PDFClassifier.mergedSources] at hs
  have hs2case : ∀ u ∈ (if hasKeywords then
        PDFClassifier.addUnique (if hasText then textS else []) keyS
      else (if hasText then textS else [])),
      u ∈ (if hasText then textS else []) ∨ u ∈ keyS ∨ ∃ n, u ∈ freqS n := by
    intro u hu
    by_cases hk : hasKeywords = true
    · rw [if_pos hk] at hu
      obtain ⟨rest, heq, hmem⟩ := addUnique_split keyS (if hasText then textS else [])
      rw [heq] at hu
      rcases List.mem_append.mp hu with hu | hu
      · exact Or.inl hu
      · exact Or.inr (Or.inl (hmem u hu).1)
    · rw [if_neg hk] at hu
      exact Or.inl hu
  by_cases h3 : (if hasKeywords then
      PDFClassifier.addUnique (if hasText then textS else []) keyS
    else (if hasText then textS else [])).length < maxS
  · rw [if_pos h3] at hs
    obtain ⟨rest, heq, hmem⟩ := addUnique_split (freqS (maxS -
      (if hasKeywords then
        PDFClassifier.addUnique (if hasText then textS else []) keyS
      else (if hasText then textS else [])).length)) _
    rw [heq] at hs
    rcases List.mem_append.mp hs with hs | hs
    · exact hs2case s hs
    · exact Or.inr (Or.inr ⟨_, (hmem s hs).1⟩)
  · rw [if_neg h3] at hs
    exact hs2case s hs

/-- First-source-wins: a merged candidate sharing its folder path with a
text-source suggestion is itself a text-source suggestion. -/
theorem mergedSources_first_wins (hasText : Bool)
    (textS : List PDFClassifier.Suggestion) (hasKeywords : Bool)
    (keyS : List PDFClassifier.Suggestion)
    (freqS : Nat → List PDFClassifier.Suggestion) (maxS : Nat) :
    ∀ t ∈ (if hasText then textS else []),
    ∀ s ∈ PDFClassifier.mergedSources hasText textS hasKeywords keyS freqS maxS,
      s.folder_path = t.folder_path → s ∈ (if hasText then textS else []) := by
  intro t ht s hs hfp
  simp only [PDFClassifier.mergedSources] at hs
  have ht2 : t ∈ (if hasKeywords then
      PDFClassifier.addUnique (if hasText then textS else []) keyS
    else (if hasText then textS else [])) := by
    by_cases hk : hasKeywords = true
    · rw [if_pos hk]
      obtain ⟨rest, heq, _⟩ := addUnique_split keyS (if hasText then textS else [])
      rw [heq]
      exact List.mem_append_left _ ht
    · rw [if_neg hk]
      exact ht
  have hs2 : s ∈ (if hasKeywords then
      PDFClassifier.addUnique (if hasText then textS else []) keyS
    else (if hasText then textS else [])) := by
    by_cases h3 : (if hasKeywords then
        PDFClassifier.addUnique (if hasText then textS else []) keyS
      else (if hasText then textS else [])).length < maxS
    · rw [if_pos h3] at hs
      obtain ⟨rest, heq, hmem⟩ := addUnique_split (freqS (maxS -
        (if hasKeywords then
          PDFClassifier.addUnique (if hasText then textS else []) keyS
        else (if hasText then textS else [])).length)) _
      rw [heq] at hs
      rcases List.mem_append.mp hs with hs | hs
      · exact hs
      · exact absurd hfp (by
          have := (hmem s hs).2 t ht2
          intro hq
          exact this (hq ▸ rfl))
    · rw [if_neg h3] at hs
      exact hs
  by_cases hk : hasKeywords = true
  · rw [if_pos hk] at hs2
    obtain ⟨rest, heq, hmem⟩ := addUnique_split keyS (if hasText then textS else [])
    rw [heq] at hs2
    rcases List.mem_append.mp hs2 with hs2 | hs2
    · exact hs2
    · exact absurd hfp (by
        have := (hmem s hs2).2 t ht
        intro hq
        exact this (hq ▸ rfl))
  · rw [if_neg hk] at hs2
    exact hs2

end PDFSort

namespace PDFSort

/-- **C3 (amended).** `suggest` merges the three signal sources with
*first-source-wins* deduplication by folder path (text similarity before
keyword overlap before frequency fallback, the last consulted only when
fewer than `maxSuggestions` candidates were collected) — **not** by
taking the maximum confidence per folder — and returns the merged list
sorted by confidence descending, truncated to `maxSuggestions`: the
output has at most `maxSuggestions` entries, is sorted descending, every
entry comes from one of the gated sources, and an entry sharing a folder
with a text-source candidate is that text-source candidate (the later
sources' confidence for that folder is dropped). -/
theorem suggest_merge_amended (hasText : Bool)
    (textSuggs : List PDFClassifier.Suggestion) (hasKeywords : Bool)
    (keywordSuggs : List PDFClassifier.Suggestion)
    (frequentSuggs : Nat → List PDFClassifier.Suggestion) (maxS : Nat) :
    (PDFClassifier.suggest hasText textSuggs hasKeywords keywordSuggs
        frequentSuggs maxS).length ≤ maxS
    ∧ List.Chain' (fun a b => b.confidence ≤ a.confidence)
        (PDFClassifier.suggest hasText textSuggs hasKeywords keywordSuggs
          frequentSuggs maxS)
    ∧ (∀ s ∈ PDFClassifier.suggest hasText textSuggs hasKeywords keywordSuggs
          frequentSuggs maxS,
        s ∈ (if hasText then textSuggs else [])
        ∨ s ∈ keywordSuggs
        ∨ ∃ n, s ∈ frequentSuggs n)
    ∧ (∀ t ∈ (if hasText then textSuggs else []),
        ∀ s ∈ PDFClassifier.suggest hasText textSuggs hasKeywords keywordSuggs
            frequentSuggs maxS,
          s.folder_path = t.folder_path → s ∈ (if hasText then textSuggs else [])) := by
  have hsub : ∀ s, s ∈ PDFClassifier.suggest hasText textSuggs hasKeywords
      keywordSuggs frequentSuggs maxS →
      s ∈ PDFClassifier.mergedSources hasText textSuggs hasKeywords keywordSuggs
        frequentSuggs maxS :=
    fun s hs => (mem_sortDesc _ _).mp (List.mem_of_mem_take hs)
  refine ⟨List.length_take_le _ _, List.Chain'.take (sortDesc_sorted _) _, ?_, ?_⟩
  · intro s hs
    exact mergedSources_cases hasText textSuggs hasKeywords keywordSuggs
      frequentSuggs maxS s (hsub s hs)
  · intro t ht s hs hfp
    exact mergedSources_first_wins hasText textSuggs hasKeywords keywordSuggs
      frequentSuggs maxS t ht s (hsub s hs) hfp

/-- **C3 counterexample.** With the text source producing folder "F" at
confidence 0.2 and the keyword source producing the same folder "F" at
confidence 0.8, `suggest` returns "F" with confidence 0.2 — the first
source's value — and no entry carries the maximum confidence 0.8 that
a source computed for "F", refuting the max-merge claim. -/
theorem suggest_merge_cex :
    PDFClassifier.suggest true [c3t] true [c3k] (fun _ => []) 5 = [c3t]
    ∧ c3k.folder_path = c3t.folder_path
    ∧ c3t.confidence < c3k.confidence
    ∧ ¬ (∃ s ∈ PDFClassifier.suggest true [c3t] true [c3k] (fun _ => []) 5,
          s.confidence = c3k.confidence) := by
  have h1 : PDFClassifier.suggest true [c3t] true [c3k] (fun _ => []) 5 = [c3t] := rfl
  refine ⟨h1, rfl, by norm_num [c3t, c3k], ?_⟩
  rw [h1]
  norm_num [c3t, c3k]

/-- **C3 witness.** `suggest_merge_amended` at the counterexample data:
the merged entry for folder "F" is the text-source entry. -/
theorem suggest_merge_amended_witness :
    (PDFClassifier.suggest true [c3t] true [c3k] (fun _ => []) 5).length ≤ 5
    ∧ c3t ∈ (if (true : Bool) then [c3t]
             else ([] : List PDFClassifier.Suggestion)) := by
  have h := suggest_merge_amended true [c3t] true [c3k] (fun _ => []) 5
  refine ⟨h.1, ?_⟩
  exact h.2.2.2 c3t (by simp) c3t (List.mem_singleton.mpr rfl) rfl

end PDFSort

namespace PDFSort

/-! ### C9 — keyword-overlap signal -/

theorem alGet_none_iff {α : Type} (m : List (String × α)) (k : String) :
    alGet m k = none ↔ ∀ e ∈ m, e.1 ≠ k := by
  induction m with
  | nil => simp [alGet]
  | cons e rest ih =>
    obtain ⟨k₀, v⟩ := e
    by_cases h0 : k₀ = k
    · subst h0
      simp [alGet]
    · simp [alGet, h0, ih]

theorem alSet_split {α : Type} (m : List (String × α)) (k : String) (x v : α)
    (h : alGet m k = some x) :
    ∃ m₁ m₂, m = m₁ ++ (k, x) :: m₂ ∧ alSet m k v = m₁ ++ (k, v) :: m₂
      ∧ ∀ e ∈ m₁, e.1 ≠ k := by
  induction m with
  | nil => simp [alGet] at h
  | cons e rest ih =>
    obtain ⟨k₀, w⟩ := e
    by_cases h0 : k₀ = k
    · subst h0
      have hw : w = x := by simpa [alGet] using h
      subst hw
      exact ⟨[], rest, by simp, by simp [alSet], by simp⟩
    · have h' : alGet rest k = some x := by simpa [alGet, h0] using h
      obtain ⟨m₁, m₂, he, hs, hne⟩ := ih h'
      refine ⟨(k₀, w) :: m₁, m₂, by simp [he], by simp [alSet, h0, hs], ?_⟩
      intro e he'
      rcases List.mem_cons.mp he' with rfl | he'
      · exact h0
      · exact hne e he'

theorem countName_append (n : String) (l : List PDFClassifier.SortingHistory)
    (e : PDFClassifier.SortingHistory) :
    PDFClassifier.countName n (l ++ [e])
      = PDFClassifier.countName n l
        + (if e.target_folder_name = n then 1 else 0) := by
  by_cases he : e.target_folder_name = n <;>
    simp [PDFClassifier.countName, List.filter_append, he]

theorem groupCounts_append (l : List PDFClassifier.SortingHistory)
    (e : PDFClassifier.SortingHistory) :
    PDFClassifier.groupCounts (l ++ [e])
      = match alGet (PDFClassifier.groupCounts l) e.target_folder_name with
        | some pc =>
          alSet (PDFClassifier.groupCounts l) e.target_folder_name (pc.1, pc.2 + 1)
        | none =>
          PDFClassifier.groupCounts l ++ [(e.target_folder_name, (e.target_folder, 1))] := by
  unfold PDFClassifier.groupCounts
  rw [List.foldl_append]
  rfl

end PDFSort

namespace PDFSort

/-- Invariants of the `folder_counts` grouping: the counts sum to the
number of grouped rows, each folder's count is its number of matching
rows, absent folders have no matching rows, and folder names are unique. -/
theorem groupCounts_spec (l : List PDFClassifier.SortingHistory) :
    ((PDFClassifier.groupCounts l).map (fun kv => kv.2.2)).sum = l.length
    ∧ (∀ kv ∈ PDFClassifier.groupCounts l,
        kv.2.2 = PDFClassifier.countName kv.1 l)
    ∧ (∀ n, alGet (PDFClassifier.groupCounts l) n = none →
        PDFClassifier.countName n l = 0)
    ∧ ((PDFClassifier.groupCounts l).map Prod.fst).Nodup := by
  induction l using List.reverseRecOn with
  | nil => simp [PDFClassifier.groupCounts, PDFClassifier.countName]
  | append_singleton l e ih =>
    obtain ⟨hsum, hcnt, hnone, hnd⟩ := ih
    cases hg : alGet (PDFClassifier.groupCounts l) e.target_folder_name with
    | some pc =>
      obtain ⟨p0, c0⟩ := pc
      obtain ⟨m₁, m₂, hm, hset, hne₁⟩ :=
        alSet_split (PDFClassifier.groupCounts l) e.target_folder_name (p0, c0)
          (p0, c0 + 1) hg
      have hGE : PDFClassifier.groupCounts (l ++ [e])
          = m₁ ++ (e.target_folder_name, (p0, c0 + 1)) :: m₂ := by
        rw [groupCounts_append, hg]
        exact hset
      have hc0 : c0 = PDFClassifier.countName e.target_folder_name l := by
        have := hcnt (e.target_folder_name, (p0, c0))
          (by rw [hm]; exact List.mem_append_right _ (List.mem_cons_self _ _))
        simpa using this
      have hndG : ((m₁ ++ (e.target_folder_name, (p0, c0)) :: m₂).map Prod.fst).Nodup := by
        rw [← hm]
        exact hnd
      have hname₂ : e.target_folder_name ∉ m₂.map Prod.fst := by
        rw [List.map_append, List.map_cons] at hndG
        have h2 := (List.nodup_append.mp hndG).2.1
        exact (List.nodup_cons.mp h2).1
      have hne₂ : ∀ e' ∈ m₂, e'.1 ≠ e.target_folder_name := by
        intro e' he' heq
        exact hname₂ (List.mem_map.mpr ⟨e', he', heq⟩)
      refine ⟨?_, ?_, ?_, ?_⟩
      · rw [hGE]
        rw [hm] at hsum
        simp only [List.map_append, List.map_cons, List.sum_append,
          List.sum_cons] at hsum ⊢
        simp only [List.length_append, List.length_singleton]
        omega
      · intro kv hkv
        rw [hGE] at hkv
        rw [countName_append]
        rcases List.mem_append.mp hkv with hkv | hkv
        · have h1 := hcnt kv (by rw [hm]; exact List.mem_append_left _ hkv)
          rw [if_neg (fun heq => hne₁ kv hkv heq.symm)]
          simpa using h1
        · rcases List.mem_cons.mp hkv with rfl | hkv
          · rw [if_pos rfl, ← hc0]
          · have h1 := hcnt kv (by
              rw [hm]
              exact List.mem_append_right _ (List.mem_cons_of_mem _ hkv))
            rw [if_neg (fun heq => hne₂ kv hkv heq.symm)]
            simpa using h1
      · intro n hn
        rw [hGE, alGet_none_iff] at hn
        have hne : e.target_folder_name ≠ n :=
          hn (e.target_folder_name, (p0, c0 + 1))
            (List.mem_append_right _ (List.mem_cons_self _ _))
        have hGn : alGet (PDFClassifier.groupCounts l) n = none := by
          rw [hm, alGet_none_iff]
          intro e' he'
          rcases List.mem_append.mp he' with he' | he'
          · exact hn e' (List.mem_append_left _ he')
          · rcases List.mem_cons.mp he' with rfl | he'
            · exact hne
            · exact hn e' (List.mem_append_right _ (List.mem_cons_of_mem _ he'))
        rw [countName_append, hnone n hGn, if_neg hne]
      · rw [hGE]
        rw [hm] at hnd
        simpa using hnd
    | none =>
      have hGE : PDFClassifier.groupCounts (l ++ [e])
          = PDFClassifier.groupCounts l
            ++ [(e.target_folder_name, (e.target_folder, 1))] := by
        rw [groupCounts_append, hg]
      have hgkeys : ∀ e' ∈ PDFClassifier.groupCounts l, e'.1 ≠ e.target_folder_name :=
        (alGet_none_iff _ _).mp hg
      refine ⟨?_, ?_, ?_, ?_⟩
      · rw [hGE]
        simp [List.map_append, hsum]
      · intro kv hkv
        rw [hGE] at hkv
        rw [countName_append]
        rcases List.mem_append.mp hkv with hkv | hkv
        · rw [if_neg (fun heq => hgkeys kv hkv heq.symm)]
          simpa using hcnt kv hkv
        · rcases List.mem_cons.mp hkv with rfl | hkv
          · rw [if_pos rfl, hnone e.target_folder_name hg]
          · simp at hkv
      · intro n hn
        rw [hGE, alGet_none_iff] at hn
        have hne : e.target_folder_name ≠ n :=
          hn (e.target_folder_name, (e.target_folder, 1))
            (List.mem_append_right _ (List.mem_cons_self _ _))
        have hGn : alGet (PDFClassifier.groupCounts l) n = none := by
          rw [alGet_none_iff]
          intro e' he'
          exact hn e' (List.mem_append_left _ he')
        rw [countName_append, hnone n hGn, if_neg hne]
      · rw [hGE, List.map_append]
        simp only [List.map_cons, List.map_nil]
        rw [List.nodup_append]
        refine ⟨hnd, List.nodup_singleton _, ?_⟩
        intro a ha hb
        simp at hb
        obtain ⟨e', he', heq⟩ := List.mem_map.mp ha
        exact hgkeys e' he' (heq.trans hb)

end PDFSort

namespace PDFSort

/-- Row selection of the keyword-overlap signal: exactly the rows whose
(lowercased, comma-split) keyword set shares an element with the
lowercased query keyword set. -/
theorem search_mem_iff (entries : List PDFClassifier.SortingHistory)
    (kws : List String) :
    ∀ e, e ∈ PDFClassifier.search_similar_keywords entries kws
      ↔ e ∈ entries
        ∧ ∃ kw, kw ∈ (match e.keywords with
            | none => []
            | some ks =>
              if ks = "" then []
              else PDFClassifier.splitComma (PDFClassifier.lowerStr ks))
          ∧ kw ∈ kws.map PDFClassifier.lowerStr := by
  intro e
  obtain ⟨ek, etf, etfn⟩ := e
  cases ek with
  | none => simp [PDFClassifier.search_similar_keywords, List.mem_filter]
  | some ks =>
    by_cases hs : ks = ""
    · subst hs
      simp [PDFClassifier.search_similar_keywords, List.mem_filter]
    · simp [PDFClassifier.search_similar_keywords, List.mem_filter, hs,
        List.any_eq_true]

/-- **C9.** The keyword-overlap signal selects exactly the rows whose
keyword set intersects the query's, groups the matches by learned folder
name, and scores every emitted folder
`min(matchCount/totalMatches · 0.8, 0.8)`, where `matchCount` counts
that folder's matching rows and `totalMatches` is the total number of
matching rows. -/
theorem keyword_overlap_formula (resolve : String → String → Option String)
    (nameOf : String → String) (entries : List PDFClassifier.SortingHistory)
    (kws : List String) (maxS : Nat) :
    (∀ e, e ∈ PDFClassifier.search_similar_keywords entries kws
      ↔ e ∈ entries
        ∧ ∃ kw, kw ∈ (match e.keywords with
            | none => []
            | some ks =>
              if ks = "" then []
              else PDFClassifier.splitComma (PDFClassifier.lowerStr ks))
          ∧ kw ∈ kws.map PDFClassifier.lowerStr)
    ∧ (∀ s ∈ PDFClassifier.suggest_by_keywords resolve nameOf entries kws maxS,
        ∃ n p,
          (n, (p, PDFClassifier.countName n
            (PDFClassifier.search_similar_keywords entries kws)))
            ∈ PDFClassifier.groupCounts
                (PDFClassifier.search_similar_keywords entries kws)
          ∧ resolve p n = some s.folder_path
          ∧ s.folder_name = nameOf s.folder_path
          ∧ s.confidence = min
              ((PDFClassifier.countName n
                  (PDFClassifier.search_similar_keywords entries kws) : ℚ)
                / ((PDFClassifier.search_similar_keywords entries kws).length : ℚ)
                * (4 / 5))
              (4 / 5)) := by
  refine ⟨search_mem_iff entries kws, ?_⟩
  intro s hs
  by_cases hE : (PDFClassifier.search_similar_keywords entries kws).isEmpty = true
  · exfalso
    have hnil : PDFClassifier.suggest_by_keywords resolve nameOf entries kws maxS
        = [] := by
      simp only [PDFClassifier.suggest_by_keywords, hE, if_true]
    rw [hnil] at hs
    simp at hs
  · have hdef : PDFClassifier.suggest_by_keywords resolve nameOf entries kws maxS
        = (PDFClassifier.sortDesc
            ((PDFClassifier.groupCounts
                (PDFClassifier.search_similar_keywords entries kws)).filterMap
              (fun kv =>
                match resolve kv.2.1 kv.1 with
                | some fp =>
                  some { folder_path := fp
                         folder_name := nameOf fp
                         confidence := min ((kv.2.2 : ℚ)
                            / (((((PDFClassifier.groupCounts
                                (PDFClassifier.search_similar_keywords entries
                                  kws)).map (fun kv => kv.2.2)).sum : Nat) : ℚ))
                            * (4 / 5)) (4 / 5)
                         reason := "Ähnliche Schlüsselwörter" }
                | none => none))).take maxS := by
      simp only [PDFClassifier.suggest_by_keywords, hE, Bool.false_eq_true,
        if_false]
    rw [hdef] at hs
    have h1 := (mem_sortDesc _ _).mp (List.mem_of_mem_take hs)
    obtain ⟨kv, hkv, hf⟩ := List.mem_filterMap.mp h1
    obtain ⟨hsumEq, hcnt, -, -⟩ :=
      groupCounts_spec (PDFClassifier.search_similar_keywords entries kws)
    cases hr : resolve kv.2.1 kv.1 with
    | none =>
      rw [hr] at hf
      simp at hf
    | some fp =>
      rw [hr] at hf
      simp only [Option.some.injEq] at hf
      subst hf
      refine ⟨kv.1, kv.2.1, ?_, hr, rfl, ?_⟩
      · rw [← hcnt kv hkv]
        exact hkv
      · show min ((kv.2.2 : ℚ)
            / (((((PDFClassifier.groupCounts
                (PDFClassifier.search_similar_keywords entries kws)).map
                  (fun kv => kv.2.2)).sum : Nat) : ℚ)) * (4 / 5)) (4 / 5) = _
        rw [hcnt kv hkv, hsumEq]

/-- **C9 witness.** The selection clause of `keyword_overlap_formula` at
the concrete training set: the row with keywords "invoice,tax" is
selected for the query ["INVOICE"]. -/
theorem keyword_overlap_formula_witness :
    c9inv ∈ PDFClassifier.search_similar_keywords c9rows ["INVOICE"] := by
  have h := (keyword_overlap_formula (fun p _ => some p) (fun q => q) c9rows
    ["INVOICE"] 5).1 c9inv
  exact h.mpr ⟨by decide, "invoice", by decide, by decide⟩

end PDFSort
